import Mathlib

/-!
Shallow embedding of the synchronization and reconciliation engine of the
github-offline-issues application.

The embedding covers:
* the data model (repositories, issue snapshots, the four mutation queues,
  cached image assets) from src/types and src/services/storage.ts;
* the pure storage operations of src/services/storage.ts, modelled as
  functions on an explicit durable-store state;
* the sync orchestrator of the application context (publishPendingItems,
  syncRepository, incrementalSyncRepository), modelled as state-passing
  functions that also emit the trace of remote calls, with the remote
  client abstracted as an oracle that says which calls succeed;
* the effective-view resolver (getEffectiveIssueState,
  getEffectiveIssueLabels) as pure functions over the queue state;
* the image cache (cacheImage) from src/services/imageCache.ts.

Remote reads return data supplied by the environment; JavaScript Map
objects are modelled as association lists with insertion-order preserving
set semantics, matching Map.prototype.set.
-/

namespace GitHubOfflineIssues

/-- Issue state union type, "open" | "closed" in the source. -/
inductive IssueState where
  | opened : IssueState
  | closed : IssueState
deriving Repr, DecidableEq

/-- A repository entry: id is the derived key "owner/name". -/
structure Repository where
  id : String
  owner : String
  name : String
  full_name : String
  added_at : String
deriving Repr, DecidableEq

/-- A label as returned by the remote API: id, name, color. -/
structure GitHubLabel where
  id : Nat
  name : String
  color : String
deriving Repr, DecidableEq

/-- A comment attached to an issue snapshot. -/
structure GitHubComment where
  id : Nat
  body : String
deriving Repr, DecidableEq

/-- An issue snapshot: remote issue record plus locally attached comments. -/
structure OfflineIssue where
  number : Nat
  title : String
  body : String
  state : IssueState
  labels : List GitHubLabel
  comments_data : List GitHubComment
deriving Repr, DecidableEq

/-- The per-repository offline snapshot: repository fields spread together
with the issue list and the last_synced cursor. -/
structure OfflineRepository where
  repo : Repository
  issues : List OfflineIssue
  last_synced : Option String
deriving Repr, DecidableEq

/-- A queued reply awaiting publication. -/
structure PendingReply where
  id : String
  repoId : String
  issueNumber : Nat
  body : String
  created_at : String
deriving Repr, DecidableEq

/-- A queued open/close toggle awaiting publication. -/
structure PendingStateChange where
  id : String
  repoId : String
  issueNumber : Nat
  state : IssueState
  created_at : String
deriving Repr, DecidableEq

/-- A queued full-label-set update awaiting publication. -/
structure PendingLabelUpdate where
  id : String
  repoId : String
  issueNumber : Nat
  labels : List String
  created_at : String
deriving Repr, DecidableEq

/-- A locally created draft issue with no remote identity yet. -/
structure LocalIssue where
  id : String
  repoId : String
  title : String
  body : String
  labels : List String
  created_at : String
deriving Repr, DecidableEq

/-- A cached image asset, keyed by url. -/
structure CachedImage where
  url : String
  localPath : String
  repoId : String
  cached_at : String
deriving Repr, DecidableEq

/-- The durable key-value store contents relevant to the engine: the app
namespace keys (repositories, the four mutation queues) and the
offline-data namespace keys (repo_{id} entries and cached_images). -/
structure DurableStore where
  repositories : List Repository
  pendingReplies : List PendingReply
  localIssues : List LocalIssue
  pendingStateChanges : List PendingStateChange
  pendingLabelUpdates : List PendingLabelUpdate
  offlineRepos : List (String × OfflineRepository)
  cachedImages : List CachedImage
deriving Repr, DecidableEq

/-! ### Storage operations (src/services/storage.ts), as pure functions -/

/-- addRepository: append only when no entry with the same id exists. -/
def addRepository (repo : Repository) (repos : List Repository) : List Repository :=
  match repos.find? (fun r => r.id == repo.id) with
  | some _ => repos
  | none => repos ++ [repo]

/-- Key under which an offline repository is stored: repo_{repoId}. -/
def offlineKey (repoId : String) : String :=
  "repo_" ++ repoId

/-- Key-value set: replace the entry at the key in place (a store or a
JavaScript Map never holds a duplicate key, so at most one entry can
match), append when the key is new. -/
def kvSet {α : Type} : List (String × α) → String → α → List (String × α)
  | [], k, v => [(k, v)]
  | p :: t, k, v => if p.1 == k then (k, v) :: t else p :: kvSet t k v

/-- saveOfflineRepository: set the repo_{id} key, overwriting in place or
appending, matching the key-value store set semantics. -/
def saveOfflineRepository (o : OfflineRepository) (entries : List (String × OfflineRepository)) :
    List (String × OfflineRepository) :=
  kvSet entries (offlineKey o.repo.id) o

/-- getOfflineRepository: look the repo_{id} key up in the offline store. -/
def getOfflineRepository (repoId : String) (entries : List (String × OfflineRepository)) :
    Option OfflineRepository :=
  (entries.find? (fun p => p.1 == offlineKey repoId)).map (fun p => p.2)

/-- clearOfflineData: delete the repo_{id} key from the offline store. -/
def clearOfflineData (repoId : String) (entries : List (String × OfflineRepository)) :
    List (String × OfflineRepository) :=
  entries.filter (fun p => !(p.1 == offlineKey repoId))

/-- removeRepository: filter the repository out of the repositories list
and delete its offline-data key; nothing else is touched. -/
def removeRepository (repoId : String) (st : DurableStore) : DurableStore :=
  { st with
    repositories := st.repositories.filter (fun r => !(r.id == repoId)),
    offlineRepos := clearOfflineData repoId st.offlineRepos }

/-- addPendingReply: plain append. -/
def addPendingReply (reply : PendingReply) (replies : List PendingReply) : List PendingReply :=
  replies ++ [reply]

/-- removePendingReply: filter by id. -/
def removePendingReply (replyId : String) (replies : List PendingReply) : List PendingReply :=
  replies.filter (fun r => !(r.id == replyId))

/-- addLocalIssue: plain append. -/
def addLocalIssue (issue : LocalIssue) (issues : List LocalIssue) : List LocalIssue :=
  issues ++ [issue]

/-- removeLocalIssue: filter by id. -/
def removeLocalIssue (issueId : String) (issues : List LocalIssue) : List LocalIssue :=
  issues.filter (fun i => !(i.id == issueId))

/-- addPendingStateChange: replace any existing pending state change for
the same (repoId, issueNumber), then push the new one. -/
def addPendingStateChange (change : PendingStateChange) (changes : List PendingStateChange) :
    List PendingStateChange :=
  (changes.filter (fun c => !(c.repoId == change.repoId && c.issueNumber == change.issueNumber)))
    ++ [change]

/-- removePendingStateChange: filter by id. -/
def removePendingStateChange (changeId : String) (changes : List PendingStateChange) :
    List PendingStateChange :=
  changes.filter (fun c => !(c.id == changeId))

/-- addPendingLabelUpdate: replace any existing pending label update for
the same (repoId, issueNumber), then push the new one. -/
def addPendingLabelUpdate (update : PendingLabelUpdate) (updates : List PendingLabelUpdate) :
    List PendingLabelUpdate :=
  (updates.filter (fun u => !(u.repoId == update.repoId && u.issueNumber == update.issueNumber)))
    ++ [update]

/-- removePendingLabelUpdate: filter by id. -/
def removePendingLabelUpdate (updateId : String) (updates : List PendingLabelUpdate) :
    List PendingLabelUpdate :=
  updates.filter (fun u => !(u.id == updateId))

/-- addCachedImage: append only when no entry with the same url exists. -/
def addCachedImage (image : CachedImage) (images : List CachedImage) : List CachedImage :=
  match images.find? (fun i => i.url == image.url) with
  | some _ => images
  | none => images ++ [image]

/-- getCachedImageByUrl: first entry with the given url, if any. -/
def getCachedImageByUrl (url : String) (images : List CachedImage) : Option CachedImage :=
  images.find? (fun i => i.url == url)

/-! ### JavaScript Map model and the incremental-sync merge -/

/-- Map.prototype.set on a Nat-keyed map of issues: overwrite the value
at the key in place when the key is present (insertion order preserved; a
Map never holds a duplicate key, so at most one entry can match), append
otherwise. -/
def setEntry : List (Nat × OfflineIssue) → Nat → OfflineIssue → List (Nat × OfflineIssue)
  | [], k, v => [(k, v)]
  | p :: t, k, v => if p.1 == k then (k, v) :: t else p :: setEntry t k v

/-- Map.prototype.get: first (and, for maps built with setEntry, only)
entry at the key. -/
def getEntry (m : List (Nat × OfflineIssue)) (k : Nat) : Option OfflineIssue :=
  (m.find? (fun p => p.1 == k)).map (fun p => p.2)

/-- new Map(existingOffline.issues.map(issue => [issue.number, issue])). -/
def buildIssueMap (issues : List OfflineIssue) : List (Nat × OfflineIssue) :=
  issues.foldl (fun m i => setEntry m i.number i) []

/-- The merge step of incrementalSyncRepository: key the existing snapshot
issues by number, insert-or-overwrite every updated issue, then take the
values of the resulting map in order. -/
def mergeIssues (existing updated : List OfflineIssue) : List OfflineIssue :=
  (updated.foldl (fun m i => setEntry m i.number i) (buildIssueMap existing)).map
    (fun p => p.2)

/-- Keyed lookup into an issue collection: the entry with the given
number. -/
def lookupIssue (issues : List OfflineIssue) (k : Nat) : Option OfflineIssue :=
  issues.find? (fun i => i.number == k)

/-! ### Effective-view resolver (AppContext) -/

/-- getEffectiveIssueState: the queued pending state change for the key
when one exists, else the snapshot state. Pure: it only reads the queue. -/
def getEffectiveIssueState (pendingStateChanges : List PendingStateChange)
    (repoId : String) (issueNumber : Nat) (currentState : IssueState) : IssueState :=
  match pendingStateChanges.find?
      (fun c => c.repoId == repoId && c.issueNumber == issueNumber) with
  | some pendingChange => pendingChange.state
  | none => currentState

/-- Placeholder label used for names absent from the repository label
catalog: id 0 and the neutral color 6b7280. -/
def placeholderLabel (name : String) : GitHubLabel :=
  { id := 0, name := name, color := "6b7280" }

/-- Resolve one queued label name against the fetched repository label
catalog, defaulting to the placeholder. -/
def resolveLabelName (repoLabels : List GitHubLabel) (name : String) : GitHubLabel :=
  match repoLabels.find? (fun l => l.name == name) with
  | some existing => existing
  | none => placeholderLabel name

/-- getEffectiveIssueLabels: when a pending label update exists for the
key, map its names through the last-fetched label catalog of the
repository (repositoryLabels.get(repoId) or []); else the snapshot
labels. Pure: it only reads the queue and the catalog map. -/
def getEffectiveIssueLabels (pendingLabelUpdates : List PendingLabelUpdate)
    (repositoryLabels : List (String × List GitHubLabel))
    (repoId : String) (issueNumber : Nat) (currentLabels : List GitHubLabel) :
    List GitHubLabel :=
  match pendingLabelUpdates.find?
      (fun u => u.repoId == repoId && u.issueNumber == issueNumber) with
  | some pendingUpdate =>
    let repoLabels :=
      ((repositoryLabels.find? (fun p => p.1 == repoId)).map (fun p => p.2)).getD []
    pendingUpdate.labels.map (resolveLabelName repoLabels)
  | none => currentLabels

/-! ### Generic string-keyed JavaScript Map model (for the React state maps) -/

/-- Map.prototype.set for string-keyed maps: the same semantics as kvSet. -/
def setKey {α : Type} (m : List (String × α)) (k : String) (v : α) : List (String × α) :=
  kvSet m k v

/-- Map.prototype.get for string-keyed maps. -/
def getKey {α : Type} (m : List (String × α)) (k : String) : Option α :=
  (m.find? (fun p => p.1 == k)).map (fun p => p.2)

/-! ### The remote client boundary

The remote client functions of src/services/github (updateIssueState,
updateIssueLabels, createIssue, postIssueComment, fetchRepositoryLabels,
fetchAllIssuesWithComments, fetchUpdatedIssuesWithComments) and the image
fetch of the asset cache are the external collaborator boundary: each
invocation is modelled as one remote-call event, and an oracle decides
which calls succeed. Fetched data is supplied by the environment. -/

/-- One remote call issued by the engine. -/
inductive RemoteCall where
  | updateIssueState (owner name : String) (issueNumber : Nat) (state : IssueState)
  | updateIssueLabels (owner name : String) (issueNumber : Nat) (labels : List String)
  | createIssue (owner name : String) (title body : String) (labels : List String)
  | postIssueComment (owner name : String) (issueNumber : Nat) (body : String)
  | fetchRepositoryLabels (owner name : String)
  | fetchAllIssues (owner name : String)
  | fetchUpdatedIssues (owner name : String) (since : String)
  | fetchImage (url : String)
deriving Repr, DecidableEq

/-- The remote environment: which calls succeed, and what the reads
return. extractUrls stands for the extractImageUrls scan of
src/services/imageCache.ts (its regex internals are not modelled; the
orchestrator only consumes the produced url list). -/
structure RemoteEnv where
  ok : RemoteCall → Bool
  fetchedLabels : List GitHubLabel
  fetchedIssues : List OfflineIssue
  fetchedUpdatedIssues : List OfflineIssue
  extractUrls : String → List String

/-- The React in-memory mirrors held by the application context. The
syncStatus map keeps the syncing flag per repository id. -/
structure MemState where
  pendingReplies : List PendingReply
  localIssues : List LocalIssue
  pendingStateChanges : List PendingStateChange
  pendingLabelUpdates : List PendingLabelUpdate
  offlineData : List (String × OfflineRepository)
  repositoryLabels : List (String × List GitHubLabel)
  syncStatus : List (String × Bool)
deriving Repr, DecidableEq

/-- The outcome of a publish phase or of a whole sync: the remote calls
issued in order, the resulting durable store and in-memory mirrors, and
whether the operation completed (false means the first failing remote
call threw and the error propagated to the caller). -/
structure Outcome where
  trace : List RemoteCall
  durable : DurableStore
  mem : MemState
  ok : Bool
deriving Repr, DecidableEq

/-! ### Mutation queue publisher (publishPendingItems) -/

/-- One sequential queue-publishing loop: issue the remote call for each
entry in order; on success remove that single entry from durable storage
and continue; the first failure stops the loop with the failing call last
in the trace. -/
def runQueue {α : Type} (call : α → RemoteCall) (rem : α → DurableStore → DurableStore)
    (ok : RemoteCall → Bool) : List α → DurableStore → List RemoteCall × DurableStore × Bool
  | [], st => ([], st, true)
  | e :: rest, st =>
    if ok (call e) then
      let r := runQueue call rem ok rest (rem e st)
      (call e :: r.1, r.2)
    else
      ([call e], st, false)

/-- The remote call for a queued state change. -/
def stateChangeCall (repo : Repository) (c : PendingStateChange) : RemoteCall :=
  RemoteCall.updateIssueState repo.owner repo.name c.issueNumber c.state

/-- The remote call for a queued label update. -/
def labelUpdateCall (repo : Repository) (u : PendingLabelUpdate) : RemoteCall :=
  RemoteCall.updateIssueLabels repo.owner repo.name u.issueNumber u.labels

/-- The remote call for a queued local issue creation. -/
def localIssueCall (repo : Repository) (i : LocalIssue) : RemoteCall :=
  RemoteCall.createIssue repo.owner repo.name i.title i.body i.labels

/-- The remote call for a queued reply. -/
def replyCall (repo : Repository) (r : PendingReply) : RemoteCall :=
  RemoteCall.postIssueComment repo.owner repo.name r.issueNumber r.body

/-- The state-changes block of publishPendingItems: loop over the
repo-filtered queue, then (only when the block ran and completed) filter
the in-memory mirror for this repository. -/
def publishStateChanges (ok : RemoteCall → Bool) (repo : Repository)
    (st : DurableStore) (mem : MemState) : Outcome :=
  let repoStateChanges := st.pendingStateChanges.filter (fun c => c.repoId == repo.id)
  if repoStateChanges.length > 0 then
    let r := runQueue (stateChangeCall repo)
      (fun c s => { s with pendingStateChanges := removePendingStateChange c.id s.pendingStateChanges })
      ok repoStateChanges st
    if r.2.2 then
      { trace := r.1, durable := r.2.1,
        mem := { mem with pendingStateChanges :=
          mem.pendingStateChanges.filter (fun c => !(c.repoId == repo.id)) },
        ok := true }
    else
      { trace := r.1, durable := r.2.1, mem := mem, ok := false }
  else
    { trace := [], durable := st, mem := mem, ok := true }

/-- The label-updates block of publishPendingItems. -/
def publishLabelUpdates (ok : RemoteCall → Bool) (repo : Repository)
    (st : DurableStore) (mem : MemState) : Outcome :=
  let repoLabelUpdates := st.pendingLabelUpdates.filter (fun u => u.repoId == repo.id)
  if repoLabelUpdates.length > 0 then
    let r := runQueue (labelUpdateCall repo)
      (fun u s => { s with pendingLabelUpdates := removePendingLabelUpdate u.id s.pendingLabelUpdates })
      ok repoLabelUpdates st
    if r.2.2 then
      { trace := r.1, durable := r.2.1,
        mem := { mem with pendingLabelUpdates :=
          mem.pendingLabelUpdates.filter (fun u => !(u.repoId == repo.id)) },
        ok := true }
    else
      { trace := r.1, durable := r.2.1, mem := mem, ok := false }
  else
    { trace := [], durable := st, mem := mem, ok := true }

/-- The local-issue-creation block of publishPendingItems. -/
def publishLocalIssues (ok : RemoteCall → Bool) (repo : Repository)
    (st : DurableStore) (mem : MemState) : Outcome :=
  let repoLocalIssues := st.localIssues.filter (fun i => i.repoId == repo.id)
  if repoLocalIssues.length > 0 then
    let r := runQueue (localIssueCall repo)
      (fun i s => { s with localIssues := removeLocalIssue i.id s.localIssues })
      ok repoLocalIssues st
    if r.2.2 then
      { trace := r.1, durable := r.2.1,
        mem := { mem with localIssues :=
          mem.localIssues.filter (fun i => !(i.repoId == repo.id)) },
        ok := true }
    else
      { trace := r.1, durable := r.2.1, mem := mem, ok := false }
  else
    { trace := [], durable := st, mem := mem, ok := true }

/-- The replies block of publishPendingItems. -/
def publishReplies (ok : RemoteCall → Bool) (repo : Repository)
    (st : DurableStore) (mem : MemState) : Outcome :=
  let repoPendingReplies := st.pendingReplies.filter (fun r => r.repoId == repo.id)
  if repoPendingReplies.length > 0 then
    let r := runQueue (replyCall repo)
      (fun e s => { s with pendingReplies := removePendingReply e.id s.pendingReplies })
      ok repoPendingReplies st
    if r.2.2 then
      { trace := r.1, durable := r.2.1,
        mem := { mem with pendingReplies :=
          mem.pendingReplies.filter (fun e => !(e.repoId == repo.id)) },
        ok := true }
    else
      { trace := r.1, durable := r.2.1, mem := mem, ok := false }
  else
    { trace := [], durable := st, mem := mem, ok := true }

/-- publishPendingItems: state changes, then label updates, then local
issue creation, then replies; the first failing block aborts the phase
(the error propagates), later blocks do not run. -/
def publishPendingItems (ok : RemoteCall → Bool) (repo : Repository)
    (st : DurableStore) (mem : MemState) : Outcome :=
  let p1 := publishStateChanges ok repo st mem
  if p1.ok then
    let p2 := publishLabelUpdates ok repo p1.durable p1.mem
    if p2.ok then
      let p3 := publishLocalIssues ok repo p2.durable p2.mem
      if p3.ok then
        let p4 := publishReplies ok repo p3.durable p3.mem
        { p4 with trace := p1.trace ++ p2.trace ++ p3.trace ++ p4.trace }
      else
        { p3 with trace := p1.trace ++ p2.trace ++ p3.trace }
    else
      { p2 with trace := p1.trace ++ p2.trace }
  else
    p1

/-! ### Image cache (src/services/imageCache.ts) -/

/-- Truncation to a signed 32-bit value, the effect of the | 0 step of the
rolling hash in urlToFilename. -/
def toInt32 (x : Int) : Int :=
  ((x + 2 ^ 31) % 2 ^ 32) - 2 ^ 31

/-- The rolling hash of urlToFilename: acc goes to ((acc << 5) - acc +
charCode) | 0 over the characters of the url (code points, which agree
with UTF-16 code units on the basic plane). -/
def urlHash (url : String) : Int :=
  url.data.foldl (fun acc char => toInt32 (acc * 32 - acc + char.toNat)) 0

/-- The pathname used for extension detection, with query and fragment
stripped; only its suffix matters for the extension match. -/
def urlPathname (url : String) : String :=
  (((url.splitOn "?").headD "").splitOn "#").headD ""

/-- The case-insensitive extension match of urlToFilename, keeping the
original casing of the matched suffix and defaulting to .png. -/
def detectExt (path : String) : String :=
  let lower := path.toLower
  if lower.endsWith ".jpeg" || lower.endsWith ".webp" then
    path.drop (path.length - 5)
  else if lower.endsWith ".png" || lower.endsWith ".jpg" ||
      lower.endsWith ".gif" || lower.endsWith ".svg" then
    path.drop (path.length - 4)
  else
    ".png"

/-- urlToFilename: img_{hex of abs hash}{extension}. -/
def urlToFilename (url : String) : String :=
  "img_" ++ String.mk (Nat.toDigits 16 (urlHash url).natAbs) ++ detectExt (urlPathname url)

/-- cacheImage: short-circuit when the url already has a cached entry;
otherwise fetch the bytes (one remote call), and on success write the
file and record the mapping through addCachedImage. Fetch errors are
swallowed (null result), never propagated. Returns the calls issued, the
new cached_images collection, and the result entry. -/
def mkCachedImage (url repoId now : String) : CachedImage :=
  { url := url, localPath := "image-cache/" ++ urlToFilename url,
    repoId := repoId, cached_at := now }

def cacheImage (ok : RemoteCall → Bool) (url repoId now : String)
    (images : List CachedImage) : List RemoteCall × List CachedImage × Option CachedImage :=
  match getCachedImageByUrl url images with
  | some existing => ([], images, some existing)
  | none =>
    if ok (RemoteCall.fetchImage url) then
      ([RemoteCall.fetchImage url], addCachedImage (mkCachedImage url repoId now) images,
        some (mkCachedImage url repoId now))
    else
      ([RemoteCall.fetchImage url], images, none)

/-- The JavaScript Set-based de-duplication [...new Set(allUrls)]:
insertion order, first occurrence kept. -/
def jsSetDedup (l : List String) : List String :=
  l.foldl (fun acc u => if acc.contains u then acc else acc ++ [u]) []

/-- The url collection step of cacheIssueImages: for every issue, the
urls of its body, then of each of its comments, in order. -/
def collectImageUrls (extract : String → List String) (issues : List OfflineIssue) :
    List String :=
  issues.foldr
    (fun issue acc =>
      (if issue.body == "" then [] else extract issue.body)
        ++ issue.comments_data.foldr (fun c a => extract c.body ++ a) acc)
    []

/-- The sequential caching loop of cacheIssueImages: individual cache
errors are logged and skipped, never failing the sync. -/
def cacheUrlList (ok : RemoteCall → Bool) (urls : List String) (repoId now : String)
    (images : List CachedImage) : List RemoteCall × List CachedImage :=
  match urls with
  | [] => ([], images)
  | u :: rest =>
    let r := cacheImage ok u repoId now images
    let rr := cacheUrlList ok rest repoId now r.2.1
    (r.1 ++ rr.1, rr.2)

/-- cacheIssueImages: collect the image urls of every issue body and
comment body, de-duplicate, and cache each sequentially. -/
def cacheIssueImages (env : RemoteEnv) (issues : List OfflineIssue) (repoId now : String)
    (images : List CachedImage) : List RemoteCall × List CachedImage :=
  cacheUrlList env.ok (jsSetDedup (collectImageUrls env.extractUrls issues)) repoId now images

/-! ### Sync orchestrator (syncRepository, incrementalSyncRepository)

Both operations assume an authenticated session (with no token the source
returns without doing anything). The progress slot is set to syncing at
entry and the finally clause resets it to not syncing on every outcome,
so the outcome carries the final (reset) value. -/

/-- syncRepository (full sync): publish the mutation queues, fetch the
repository labels, fetch all issues with comments, cache the referenced
images, then atomically replace the offline snapshot with last_synced set
to now. Any failure during publish or fetch aborts with the durable
snapshot untouched. -/
def syncRepository (env : RemoteEnv) (now : String) (repo : Repository)
    (st : DurableStore) (mem : MemState) : Outcome :=
  let mem0 := { mem with syncStatus := setKey mem.syncStatus repo.id true }
  let p := publishPendingItems env.ok repo st mem0
  if p.ok then
    let cLabels := RemoteCall.fetchRepositoryLabels repo.owner repo.name
    if env.ok cLabels then
      let fetched := env.fetchedLabels.map (fun l => { l with id := 0 })
      let mem1 := { p.mem with repositoryLabels := setKey p.mem.repositoryLabels repo.id fetched }
      let cIssues := RemoteCall.fetchAllIssues repo.owner repo.name
      if env.ok cIssues then
        let issues := env.fetchedIssues
        let r := cacheIssueImages env issues repo.id now p.durable.cachedImages
        let offlineRepo : OfflineRepository :=
          { repo := repo, issues := issues, last_synced := some now }
        let durable2 := { p.durable with
          cachedImages := r.2,
          offlineRepos := saveOfflineRepository offlineRepo p.durable.offlineRepos }
        let mem2 := { mem1 with
          offlineData := setKey mem1.offlineData repo.id offlineRepo,
          syncStatus := setKey mem1.syncStatus repo.id false }
        { trace := p.trace ++ [cLabels, cIssues] ++ r.1, durable := durable2,
          mem := mem2, ok := true }
      else
        { trace := p.trace ++ [cLabels, cIssues], durable := p.durable,
          mem := { mem1 with syncStatus := setKey mem1.syncStatus repo.id false },
          ok := false }
    else
      { trace := p.trace ++ [cLabels], durable := p.durable,
        mem := { p.mem with syncStatus := setKey p.mem.syncStatus repo.id false },
        ok := false }
  else
    { trace := p.trace, durable := p.durable,
      mem := { p.mem with syncStatus := setKey p.mem.syncStatus repo.id false },
      ok := false }

/-- incrementalSyncRepository: with no prior snapshot or cursor, fall
back to a full sync; otherwise publish the queues, fetch only the issues
updated since the cursor, right-bias merge them over the existing
snapshot issues, and persist with last_synced set to now. No label fetch
and no image caching happen on this path. -/
def incrementalSyncRepository (env : RemoteEnv) (now : String) (repo : Repository)
    (st : DurableStore) (mem : MemState) : Outcome :=
  match getKey mem.offlineData repo.id with
  | none => syncRepository env now repo st mem
  | some existingOffline =>
    match existingOffline.last_synced with
    | none => syncRepository env now repo st mem
    | some since =>
      let mem0 := { mem with syncStatus := setKey mem.syncStatus repo.id true }
      let p := publishPendingItems env.ok repo st mem0
      if p.ok then
        let c := RemoteCall.fetchUpdatedIssues repo.owner repo.name since
        if env.ok c then
          let mergedIssues := mergeIssues existingOffline.issues env.fetchedUpdatedIssues
          let offlineRepo : OfflineRepository :=
            { repo := repo, issues := mergedIssues, last_synced := some now }
          let durable2 := { p.durable with
            offlineRepos := saveOfflineRepository offlineRepo p.durable.offlineRepos }
          let mem2 := { p.mem with
            offlineData := setKey p.mem.offlineData repo.id offlineRepo,
            syncStatus := setKey p.mem.syncStatus repo.id false }
          { trace := p.trace ++ [c], durable := durable2, mem := mem2, ok := true }
        else
          { trace := p.trace ++ [c], durable := p.durable,
            mem := { p.mem with syncStatus := setKey p.mem.syncStatus repo.id false },
            ok := false }
      else
        { trace := p.trace, durable := p.durable,
          mem := { p.mem with syncStatus := setKey p.mem.syncStatus repo.id false },
          ok := false }

/-! ### Keys and call classes used by the stated properties -/

/-- The (repoId, issueNumber) key of a pending state change. -/
def stateChangeKey (c : PendingStateChange) : String × Nat :=
  (c.repoId, c.issueNumber)

/-- The (repoId, issueNumber) key of a pending label update. -/
def labelUpdateKey (u : PendingLabelUpdate) : String × Nat :=
  (u.repoId, u.issueNumber)

/-- A collection holds at most one entry per key. -/
def distinctKeys {α : Type} (key : α → String × Nat) (l : List α) : Prop :=
  l.Pairwise (fun a b => key a ≠ key b)

/-- Remote reads: the paged issue, label and image fetches. -/
def isReadCall : RemoteCall → Bool
  | RemoteCall.fetchRepositoryLabels _ _ => true
  | RemoteCall.fetchAllIssues _ _ => true
  | RemoteCall.fetchUpdatedIssues _ _ _ => true
  | RemoteCall.fetchImage _ => true
  | _ => false

/-- Whether a remote call is a create-comment (reply) call. -/
def isPostCommentCall : RemoteCall → Bool
  | RemoteCall.postIssueComment _ _ _ _ => true
  | _ => false

/-! ### Sample data used to evaluate the definitions on concrete inputs -/

/-- A sample repository. -/
def repoA : Repository :=
  { id := "acme/widgets", owner := "acme", name := "widgets",
    full_name := "acme/widgets", added_at := "2024-01-01T00:00:00Z" }

/-- Sample issue snapshot number 1. -/
def issue1 : OfflineIssue :=
  { number := 1, title := "one", body := "", state := IssueState.opened,
    labels := [], comments_data := [] }

/-- Sample issue snapshot number 2. -/
def issue2 : OfflineIssue :=
  { number := 2, title := "two", body := "", state := IssueState.opened,
    labels := [], comments_data := [] }

/-- A stale snapshot of issue number 9. -/
def issue9old : OfflineIssue :=
  { number := 9, title := "nine", body := "stale", state := IssueState.opened,
    labels := [], comments_data := [] }

/-- A freshly fetched snapshot of issue number 9. -/
def issue9new : OfflineIssue :=
  { number := 9, title := "nine", body := "fresh", state := IssueState.closed,
    labels := [], comments_data := [] }

/-- A sample pending state change for issue 5. -/
def change5a : PendingStateChange :=
  { id := "acme/widgets-5-state-1", repoId := "acme/widgets", issueNumber := 5,
    state := IssueState.closed, created_at := "t1" }

/-- A second pending state change for the same issue 5. -/
def change5b : PendingStateChange :=
  { id := "acme/widgets-5-state-2", repoId := "acme/widgets", issueNumber := 5,
    state := IssueState.opened, created_at := "t2" }

/-- A pending state change for issue 7. -/
def change7 : PendingStateChange :=
  { id := "acme/widgets-7-state-1", repoId := "acme/widgets", issueNumber := 7,
    state := IssueState.closed, created_at := "t3" }

/-- A sample pending label update for issue 5. -/
def update5 : PendingLabelUpdate :=
  { id := "acme/widgets-5-labels-1", repoId := "acme/widgets", issueNumber := 5,
    labels := ["bug", "mystery"], created_at := "t1" }

/-- A second pending label update for issue 5. -/
def update5b : PendingLabelUpdate :=
  { id := "acme/widgets-5-labels-2", repoId := "acme/widgets", issueNumber := 5,
    labels := ["bug"], created_at := "t2" }

/-- A sample queued reply on issue 5. -/
def reply1 : PendingReply :=
  { id := "acme/widgets-5-100", repoId := "acme/widgets", issueNumber := 5,
    body := "first reply", created_at := "t1" }

/-- A second queued reply on issue 6. -/
def reply2 : PendingReply :=
  { id := "acme/widgets-6-200", repoId := "acme/widgets", issueNumber := 6,
    body := "second reply", created_at := "t2" }

/-- A sample local draft issue. -/
def local1 : LocalIssue :=
  { id := "acme/widgets-local-300", repoId := "acme/widgets", title := "draft",
    body := "draft body", labels := ["bug"], created_at := "t3" }

/-- The known catalog label named bug. -/
def bugLabel : GitHubLabel :=
  { id := 7, name := "bug", color := "d73a4a" }

/-- A sample durable store holding one entry in each mutation queue for
repoA. -/
def sampleStore : DurableStore :=
  { repositories := [repoA],
    pendingReplies := [reply1, reply2],
    localIssues := [local1],
    pendingStateChanges := [change5a],
    pendingLabelUpdates := [update5],
    offlineRepos :=
      [(offlineKey repoA.id,
        { repo := repoA, issues := [issue1, issue2, issue9old],
          last_synced := some "2024-02-01T00:00:00Z" })],
    cachedImages := [] }

/-- In-memory mirrors matching sampleStore. -/
def sampleMem : MemState :=
  { pendingReplies := [reply1, reply2],
    localIssues := [local1],
    pendingStateChanges := [change5a],
    pendingLabelUpdates := [update5],
    offlineData :=
      [(repoA.id,
        { repo := repoA, issues := [issue1, issue2, issue9old],
          last_synced := some "2024-02-01T00:00:00Z" })],
    repositoryLabels := [(repoA.id, [bugLabel])],
    syncStatus := [] }

/-- An environment where every remote call succeeds. -/
def envAllOk : RemoteEnv :=
  { ok := fun _ => true,
    fetchedLabels := [bugLabel],
    fetchedIssues := [issue1, issue2, issue9new],
    fetchedUpdatedIssues := [issue9new],
    extractUrls := fun _ => [] }

/-- An environment where exactly the remote call publishing reply2 fails
and everything else succeeds. -/
def envFailReply2 : RemoteEnv :=
  { envAllOk with ok := fun c => !(c == replyCall repoA reply2) }

/-! ## Claim theorems -/

/-- C9: addRepository is idempotent at the storage layer: when a
repository with the same id is already stored, the stored list is
returned unchanged and no duplicate is appended. -/
theorem addRepository_idempotent (repo : Repository) (repos : List Repository)
    (h : ∃ r ∈ repos, r.id = repo.id) :
    addRepository repo repos = repos := by
  unfold addRepository
  split
  · rfl
  · next hnone =>
      obtain ⟨r, hr, hid⟩ := h
      have hnot := List.find?_eq_none.mp hnone r hr
      simp [hid] at hnot

/-- Witness for C9 at a concrete input. -/
theorem addRepository_idempotent_witness :
    (∃ r ∈ [repoA], r.id = repoA.id) ∧ addRepository repoA [repoA] = [repoA] :=
  ⟨⟨repoA, by simp, rfl⟩, addRepository_idempotent repoA [repoA] ⟨repoA, by simp, rfl⟩⟩

/-- C10: removeRepository removes the repository from the stored list and
deletes its offline snapshot key, but leaves the pending replies, pending
state changes, pending label updates, local issues and cached images
collections unchanged. -/
theorem removeRepository_frame (repoId : String) (st : DurableStore) :
    (removeRepository repoId st).repositories
        = st.repositories.filter (fun r => !(r.id == repoId)) ∧
    getOfflineRepository repoId (removeRepository repoId st).offlineRepos = none ∧
    (removeRepository repoId st).pendingReplies = st.pendingReplies ∧
    (removeRepository repoId st).pendingStateChanges = st.pendingStateChanges ∧
    (removeRepository repoId st).pendingLabelUpdates = st.pendingLabelUpdates ∧
    (removeRepository repoId st).localIssues = st.localIssues ∧
    (removeRepository repoId st).cachedImages = st.cachedImages := by
  refine ⟨rfl, ?_, rfl, rfl, rfl, rfl, rfl⟩
  show (List.find? _ _).map _ = none
  rw [Option.map_eq_none', List.find?_eq_none]
  intro p hp
  have hmem := List.mem_filter.mp hp
  simpa using hmem.2

/-! ### C4: single entry per (repoId, issueNumber) -/

theorem distinctKeys_addPendingStateChange (c : PendingStateChange)
    (l : List PendingStateChange) (h : distinctKeys stateChangeKey l) :
    distinctKeys stateChangeKey (addPendingStateChange c l) := by
  unfold distinctKeys at *
  unfold addPendingStateChange
  rw [List.pairwise_append]
  refine ⟨h.sublist (List.filter_sublist l), List.pairwise_singleton _ _, ?_⟩
  intro a ha b hb
  have hb2 : b = c := by simpa using hb
  subst hb2
  have hpred := (List.mem_filter.mp ha).2
  simp only [Bool.not_eq_true', Bool.and_eq_false_iff, beq_eq_false_iff_ne] at hpred
  simp only [stateChangeKey, ne_eq, Prod.mk.injEq, not_and]
  intro hrep hnum
  rcases hpred with hp | hp
  · exact hp hrep
  · exact hp hnum

theorem distinctKeys_addPendingLabelUpdate (u : PendingLabelUpdate)
    (l : List PendingLabelUpdate) (h : distinctKeys labelUpdateKey l) :
    distinctKeys labelUpdateKey (addPendingLabelUpdate u l) := by
  unfold distinctKeys at *
  unfold addPendingLabelUpdate
  rw [List.pairwise_append]
  refine ⟨h.sublist (List.filter_sublist l), List.pairwise_singleton _ _, ?_⟩
  intro a ha b hb
  have hb2 : b = u := by simpa using hb
  subst hb2
  have hpred := (List.mem_filter.mp ha).2
  simp only [Bool.not_eq_true', Bool.and_eq_false_iff, beq_eq_false_iff_ne] at hpred
  simp only [labelUpdateKey, ne_eq, Prod.mk.injEq, not_and]
  intro hrep hnum
  rcases hpred with hp | hp
  · exact hp hrep
  · exact hp hnum

theorem distinctKeys_foldl_addPendingStateChange (adds : List PendingStateChange)
    (l : List PendingStateChange) (h : distinctKeys stateChangeKey l) :
    distinctKeys stateChangeKey (adds.foldl (fun acc c => addPendingStateChange c acc) l) := by
  induction adds generalizing l with
  | nil => exact h
  | cons c rest ih => exact ih _ (distinctKeys_addPendingStateChange c l h)

theorem distinctKeys_foldl_addPendingLabelUpdate (adds : List PendingLabelUpdate)
    (l : List PendingLabelUpdate) (h : distinctKeys labelUpdateKey l) :
    distinctKeys labelUpdateKey (adds.foldl (fun acc u => addPendingLabelUpdate u acc) l) := by
  induction adds generalizing l with
  | nil => exact h
  | cons u rest ih => exact ih _ (distinctKeys_addPendingLabelUpdate u l h)

/-- C4: after any sequence of add operations the stored pending state
change and pending label update collections hold at most one entry per
(repoId, issueNumber) key, and adding an entry for a key that already has
one replaces the prior entry: the only entry at that key afterwards is
the newly added one. -/
theorem pending_queue_single_entry :
    (∀ adds : List PendingStateChange,
      distinctKeys stateChangeKey (adds.foldl (fun acc c => addPendingStateChange c acc) [])) ∧
    (∀ adds : List PendingLabelUpdate,
      distinctKeys labelUpdateKey (adds.foldl (fun acc u => addPendingLabelUpdate u acc) [])) ∧
    (∀ (c : PendingStateChange) (l : List PendingStateChange),
      c ∈ addPendingStateChange c l ∧
      ∀ x ∈ addPendingStateChange c l, stateChangeKey x = stateChangeKey c → x = c) ∧
    (∀ (u : PendingLabelUpdate) (l : List PendingLabelUpdate),
      u ∈ addPendingLabelUpdate u l ∧
      ∀ x ∈ addPendingLabelUpdate u l, labelUpdateKey x = labelUpdateKey u → x = u) := by
  refine ⟨fun adds => distinctKeys_foldl_addPendingStateChange adds [] (List.Pairwise.nil),
    fun adds => distinctKeys_foldl_addPendingLabelUpdate adds [] (List.Pairwise.nil),
    fun c l => ⟨?_, ?_⟩, fun u l => ⟨?_, ?_⟩⟩
  · unfold addPendingStateChange
    exact List.mem_append_right _ (List.mem_singleton_self c)
  · intro x hx hkey
    unfold addPendingStateChange at hx
    rcases List.mem_append.mp hx with hx | hx
    · exfalso
      have hpred := (List.mem_filter.mp hx).2
      simp only [Bool.not_eq_true', Bool.and_eq_false_iff, beq_eq_false_iff_ne] at hpred
      simp only [stateChangeKey, Prod.mk.injEq] at hkey
      rcases hpred with hp | hp
      · exact hp hkey.1
      · exact hp hkey.2
    · simpa using hx
  · unfold addPendingLabelUpdate
    exact List.mem_append_right _ (List.mem_singleton_self u)
  · intro x hx hkey
    unfold addPendingLabelUpdate at hx
    rcases List.mem_append.mp hx with hx | hx
    · exfalso
      have hpred := (List.mem_filter.mp hx).2
      simp only [Bool.not_eq_true', Bool.and_eq_false_iff, beq_eq_false_iff_ne] at hpred
      simp only [labelUpdateKey, Prod.mk.injEq] at hkey
      rcases hpred with hp | hp
      · exact hp hkey.1
      · exact hp hkey.2
    · simpa using hx

/-- Witness for C4 at concrete inputs: two adds on the same key and one
on another key leave single entries, and the replacement keeps only the
newest entry at the key. -/
theorem pending_queue_single_entry_witness :
    distinctKeys stateChangeKey
      ([change5a, change5b, change7].foldl (fun acc c => addPendingStateChange c acc) []) ∧
    change5b ∈ addPendingStateChange change5b [change5a, change7] ∧
    update5b ∈ addPendingLabelUpdate update5b [update5] :=
  ⟨pending_queue_single_entry.1 [change5a, change5b, change7],
   (pending_queue_single_entry.2.2.1 change5b [change5a, change7]).1,
   (pending_queue_single_entry.2.2.2 update5b [update5]).1⟩

/-! ### C5, C6: the effective-view resolver -/

theorem find?_eq_some_of_unique {α : Type} (p : α → Bool) (key : α → String × Nat)
    (k : String × Nat) (hp : ∀ x, p x = true ↔ key x = k)
    (l : List α) (c : α) (hmem : c ∈ l) (hc : key c = k)
    (hpw : l.Pairwise (fun a b => key a ≠ key b)) :
    l.find? p = some c := by
  induction l with
  | nil => cases hmem
  | cons h t ih =>
    rw [List.pairwise_cons] at hpw
    cases hph : p h with
    | true =>
      rw [List.find?_cons_of_pos _ hph]
      rcases List.mem_cons.mp hmem with rfl | hct
      · rfl
      · exact absurd (((hp h).mp hph).trans hc.symm) (hpw.1 c hct)
    | false =>
      rw [List.find?_cons_of_neg _ (by simp [hph])]
      rcases List.mem_cons.mp hmem with rfl | hct
      · rw [(hp c).mpr hc] at hph
        cases hph
      · exact ih hct hpw.2

/-- C5: getEffectiveIssueState returns the queued pending state change
for the key when one exists, the snapshot state when none does, and it is
idempotent: feeding its result back as the snapshot state changes
nothing (the function is a pure read of the queue). -/
theorem effective_state_overlay (pending : List PendingStateChange)
    (repoId : String) (issueNumber : Nat) (s : IssueState) :
    (∀ c ∈ pending, c.repoId = repoId → c.issueNumber = issueNumber →
      distinctKeys stateChangeKey pending →
      getEffectiveIssueState pending repoId issueNumber s = c.state) ∧
    ((∀ c ∈ pending, ¬(c.repoId = repoId ∧ c.issueNumber = issueNumber)) →
      getEffectiveIssueState pending repoId issueNumber s = s) ∧
    getEffectiveIssueState pending repoId issueNumber
        (getEffectiveIssueState pending repoId issueNumber s)
      = getEffectiveIssueState pending repoId issueNumber s := by
  refine ⟨?_, ?_, ?_⟩
  · intro c hmem hrep hnum hpw
    have hfind : pending.find?
        (fun c => c.repoId == repoId && c.issueNumber == issueNumber) = some c := by
      refine find?_eq_some_of_unique _ stateChangeKey (repoId, issueNumber) ?_ pending c hmem ?_ hpw
      · intro x
        simp [stateChangeKey, Prod.ext_iff]
      · simp [stateChangeKey, hrep, hnum]
    unfold getEffectiveIssueState
    rw [hfind]
  · intro hnone
    have hfind : pending.find?
        (fun c => c.repoId == repoId && c.issueNumber == issueNumber) = none := by
      rw [List.find?_eq_none]
      intro c hmem
      have := hnone c hmem
      simp only [Bool.not_eq_true, Bool.and_eq_false_iff, beq_eq_false_iff_ne]
      by_cases hr : c.repoId = repoId
      · exact Or.inr (fun hn => this ⟨hr, hn⟩)
      · exact Or.inl hr
    unfold getEffectiveIssueState
    rw [hfind]
  · cases hfind : pending.find?
        (fun c => c.repoId == repoId && c.issueNumber == issueNumber) with
    | none => simp [getEffectiveIssueState, hfind]
    | some c => simp [getEffectiveIssueState, hfind]

/-- Witness for C5: with the queued close of issue 5 the effective state
is closed, and with an empty queue the snapshot state is returned. -/
theorem effective_state_overlay_witness :
    getEffectiveIssueState [change5a] "acme/widgets" 5 IssueState.opened
      = IssueState.closed ∧
    getEffectiveIssueState [] "acme/widgets" 5 IssueState.opened
      = IssueState.opened :=
  ⟨(effective_state_overlay [change5a] "acme/widgets" 5 IssueState.opened).1
      change5a (by simp) rfl rfl (by simp [distinctKeys]),
   (effective_state_overlay [] "acme/widgets" 5 IssueState.opened).2.1 (by simp)⟩

/-- C6: getEffectiveIssueLabels returns the snapshot labels when no
pending label update exists for the key; when one exists, the result has
one label per queued name, each resolved against the last-fetched label
catalog of the repository, with names absent from the catalog mapped to
the placeholder label (id 0, neutral color 6b7280). -/
theorem effective_labels_overlay (queue : List PendingLabelUpdate)
    (catalog : List (String × List GitHubLabel)) (repoId : String) (issueNumber : Nat)
    (currentLabels : List GitHubLabel) :
    ((∀ u ∈ queue, ¬(u.repoId = repoId ∧ u.issueNumber = issueNumber)) →
      getEffectiveIssueLabels queue catalog repoId issueNumber currentLabels
        = currentLabels) ∧
    (∀ u ∈ queue, u.repoId = repoId → u.issueNumber = issueNumber →
      distinctKeys labelUpdateKey queue →
      (getEffectiveIssueLabels queue catalog repoId issueNumber currentLabels).length
          = u.labels.length ∧
      ∀ (i : Nat) (name : String), u.labels.get? i = some name →
        (∀ l, ((getKey catalog repoId).getD []).find? (fun l2 => l2.name == name) = some l →
          (getEffectiveIssueLabels queue catalog repoId issueNumber currentLabels).get? i
            = some l) ∧
        (((getKey catalog repoId).getD []).find? (fun l2 => l2.name == name) = none →
          (getEffectiveIssueLabels queue catalog repoId issueNumber currentLabels).get? i
            = some (placeholderLabel name))) := by
  constructor
  · intro hnone
    have hfind : queue.find?
        (fun u => u.repoId == repoId && u.issueNumber == issueNumber) = none := by
      rw [List.find?_eq_none]
      intro u hmem
      have := hnone u hmem
      simp only [Bool.not_eq_true, Bool.and_eq_false_iff, beq_eq_false_iff_ne]
      by_cases hr : u.repoId = repoId
      · exact Or.inr (fun hn => this ⟨hr, hn⟩)
      · exact Or.inl hr
    unfold getEffectiveIssueLabels
    rw [hfind]
  · intro u hmem hrep hnum hpw
    have hfind : queue.find?
        (fun u => u.repoId == repoId && u.issueNumber == issueNumber) = some u := by
      refine find?_eq_some_of_unique _ labelUpdateKey (repoId, issueNumber) ?_ queue u hmem ?_ hpw
      · intro x
        simp [labelUpdateKey, Prod.ext_iff]
      · simp [labelUpdateKey, hrep, hnum]
    have hres : getEffectiveIssueLabels queue catalog repoId issueNumber currentLabels
        = u.labels.map (resolveLabelName ((getKey catalog repoId).getD [])) := by
      simp [getEffectiveIssueLabels, hfind, getKey]
    refine ⟨by rw [hres, List.length_map], ?_⟩
    intro i name hname
    have hget : (getEffectiveIssueLabels queue catalog repoId issueNumber currentLabels).get? i
        = some (resolveLabelName ((getKey catalog repoId).getD []) name) := by
      have hname2 : u.labels[i]? = some name := by
        rw [← List.get?_eq_getElem?]
        exact hname
      rw [hres, List.get?_eq_getElem?, List.getElem?_map, hname2]
      rfl
    constructor
    · intro l hl
      rw [hget]
      simp [resolveLabelName, hl]
    · intro hl
      rw [hget]
      simp [resolveLabelName, hl]

/-- Witness for C6: the queued names bug and mystery resolve to the
catalog label and to the placeholder respectively, and an empty queue
returns the snapshot labels. -/
theorem effective_labels_overlay_witness :
    (getEffectiveIssueLabels [update5] [("acme/widgets", [bugLabel])] "acme/widgets" 5
        []).get? 0 = some bugLabel ∧
    (getEffectiveIssueLabels [update5] [("acme/widgets", [bugLabel])] "acme/widgets" 5
        []).get? 1 = some (placeholderLabel "mystery") ∧
    getEffectiveIssueLabels [] [("acme/widgets", [bugLabel])] "acme/widgets" 5 [bugLabel]
      = [bugLabel] := by
  have h := (effective_labels_overlay [update5] [("acme/widgets", [bugLabel])]
      "acme/widgets" 5 []).2 update5 (by simp) rfl rfl (by simp [distinctKeys])
  refine ⟨(h.2 0 "bug" rfl).1 bugLabel (by decide), (h.2 1 "mystery" rfl).2 (by decide),
    (effective_labels_overlay [] [("acme/widgets", [bugLabel])] "acme/widgets" 5
        [bugLabel]).1 (by simp)⟩

/-! ### C1: right-biased merge of the incremental sync -/

theorem getEntry_cons (q : Nat × OfflineIssue) (t : List (Nat × OfflineIssue)) (j : Nat) :
    getEntry (q :: t) j = if q.1 == j then some q.2 else getEntry t j := by
  unfold getEntry
  by_cases h : q.1 = j
  · rw [List.find?_cons_of_pos _ (by simp [h]), if_pos (by simp [h])]
    rfl
  · rw [List.find?_cons_of_neg _ (by simp [h]), if_neg (by simp [h])]

theorem getEntry_setEntry (m : List (Nat × OfflineIssue)) (k : Nat) (v : OfflineIssue)
    (j : Nat) : getEntry (setEntry m k v) j = if j = k then some v else getEntry m j := by
  induction m with
  | nil =>
    show getEntry [(k, v)] j = _
    rw [getEntry_cons]
    by_cases h : j = k
    · simp [h]
    · simp [h, Ne.symm h, getEntry]
  | cons p t ih =>
    show getEntry (if p.1 == k then (k, v) :: t else p :: setEntry t k v) j = _
    by_cases hpk : p.1 = k
    · rw [if_pos (by simp [hpk]), getEntry_cons]
      by_cases hjk : j = k
      · simp [hjk]
      · rw [if_neg (by simp [Ne.symm hjk]), if_neg hjk, getEntry_cons,
          if_neg (by simp [hpk, Ne.symm hjk])]
    · rw [if_neg (by simp [hpk]), getEntry_cons, ih, getEntry_cons]
      by_cases hjk : j = k
      · subst hjk
        rw [if_pos rfl, if_pos rfl, if_neg (by simp [hpk])]
      · rw [if_neg hjk, if_neg hjk]

theorem getEntry_foldl_set (D : List OfflineIssue) (m0 : List (Nat × OfflineIssue)) (k : Nat)
    (hD : D.Pairwise (fun a b => a.number ≠ b.number)) :
    getEntry (D.foldl (fun m i => setEntry m i.number i) m0) k =
      match D.find? (fun i => i.number == k) with
      | some i => some i
      | none => getEntry m0 k := by
  revert hD
  induction D generalizing m0 with
  | nil => intro _; rfl
  | cons i t ih =>
    intro hD
    rw [List.pairwise_cons] at hD
    show getEntry (t.foldl _ (setEntry m0 i.number i)) k = _
    rw [ih _ hD.2]
    by_cases hik : i.number = k
    · rw [List.find?_cons_of_pos _ (by simp [hik])]
      have htnone : t.find? (fun i2 => i2.number == k) = none := by
        rw [List.find?_eq_none]
        intro x hx
        simp only [beq_eq_false_iff_ne, ne_eq, Bool.not_eq_true]
        intro h
        exact (hD.1 x hx) (hik.trans h.symm)
      rw [htnone, getEntry_setEntry, if_pos hik.symm]
    · rw [List.find?_cons_of_neg _ (by simp [hik])]
      cases ht : t.find? (fun i2 => i2.number == k) with
      | some x => rfl
      | none => rw [getEntry_setEntry, if_neg (fun h => hik h.symm)]

theorem wf_setEntry (m : List (Nat × OfflineIssue)) (v : OfflineIssue)
    (hwf : ∀ p ∈ m, p.1 = p.2.number) :
    ∀ p ∈ setEntry m v.number v, p.1 = p.2.number := by
  induction m with
  | nil =>
    intro p hp
    simp only [setEntry, List.mem_singleton] at hp
    subst hp
    rfl
  | cons q t ih =>
    intro p hp
    show p.1 = p.2.number
    rw [show setEntry (q :: t) v.number v
        = if q.1 == v.number then (v.number, v) :: t else q :: setEntry t v.number v from rfl]
      at hp
    by_cases h : q.1 = v.number
    · rw [if_pos (by simp [h])] at hp
      rcases List.mem_cons.mp hp with rfl | hp2
      · rfl
      · exact hwf p (List.mem_cons_of_mem q hp2)
    · rw [if_neg (by simp [h])] at hp
      rcases List.mem_cons.mp hp with rfl | hp2
      · exact hwf p (List.mem_cons_self p t)
      · exact ih (fun x hx => hwf x (List.mem_cons_of_mem q hx)) p hp2

theorem wf_foldl_set (D : List OfflineIssue) (m0 : List (Nat × OfflineIssue))
    (hwf : ∀ p ∈ m0, p.1 = p.2.number) :
    ∀ p ∈ D.foldl (fun m i => setEntry m i.number i) m0, p.1 = p.2.number := by
  induction D generalizing m0 with
  | nil => exact hwf
  | cons i t ih => exact ih _ (wf_setEntry m0 i hwf)

theorem find?_values (m : List (Nat × OfflineIssue)) (k : Nat)
    (hwf : ∀ p ∈ m, p.1 = p.2.number) :
    (m.map (fun p => p.2)).find? (fun i => i.number == k)
      = (m.find? (fun p => p.1 == k)).map (fun p => p.2) := by
  induction m with
  | nil => rfl
  | cons q t ih =>
    have hq := hwf q (List.mem_cons_self q t)
    by_cases h : q.1 = k
    · rw [List.map_cons, List.find?_cons_of_pos _ (by simp [← hq, h]),
        List.find?_cons_of_pos _ (by simp [h])]
      rfl
    · rw [List.map_cons, List.find?_cons_of_neg _ (by simp [← hq, h]),
        List.find?_cons_of_neg _ (by simp [h])]
      exact ih (fun x hx => hwf x (List.mem_cons_of_mem q hx))

/-- C1: the incremental-sync merge is right-biased: at every issue number
k the merged collection holds the delta entry when the delta has one, and
the prior snapshot entry otherwise; issues absent from the delta are
preserved unchanged and nothing is deleted. -/
theorem mergeIssues_right_bias (S D : List OfflineIssue) (k : Nat)
    (hS : S.Pairwise (fun a b => a.number ≠ b.number))
    (hD : D.Pairwise (fun a b => a.number ≠ b.number)) :
    lookupIssue (mergeIssues S D) k =
      match lookupIssue D k with
      | some i => some i
      | none => lookupIssue S k := by
  have hwf0 : ∀ p ∈ buildIssueMap S, p.1 = p.2.number :=
    wf_foldl_set S [] (by intro p hp; cases hp)
  have hwfM : ∀ p ∈ D.foldl (fun m i => setEntry m i.number i) (buildIssueMap S),
      p.1 = p.2.number := wf_foldl_set D _ hwf0
  unfold mergeIssues lookupIssue
  rw [find?_values _ k hwfM]
  show getEntry (D.foldl _ (buildIssueMap S)) k = _
  rw [getEntry_foldl_set D _ k hD]
  cases hDf : D.find? (fun i => i.number == k) with
  | some i => rfl
  | none =>
    show getEntry (buildIssueMap S) k = _
    unfold buildIssueMap
    rw [getEntry_foldl_set S [] k hS]
    cases hSf : S.find? (fun i => i.number == k) with
    | some i => rfl
    | none => rfl

/-- Witness for C1: merging the delta issue9new over the snapshot with
issues 1, 2 and a stale 9 keeps issues 1 and 2 unchanged and replaces
issue 9 with the delta entry. -/
theorem mergeIssues_right_bias_witness :
    lookupIssue (mergeIssues [issue1, issue2, issue9old] [issue9new]) 9 = some issue9new ∧
    lookupIssue (mergeIssues [issue1, issue2, issue9old] [issue9new]) 1 = some issue1 := by
  have hS : List.Pairwise (fun a b => a.number ≠ b.number) [issue1, issue2, issue9old] := by
    decide
  have hD : List.Pairwise (fun a b => a.number ≠ b.number) [issue9new] := by
    decide
  refine ⟨?_, ?_⟩
  · rw [mergeIssues_right_bias [issue1, issue2, issue9old] [issue9new] 9 hS hD]
    decide
  · rw [mergeIssues_right_bias [issue1, issue2, issue9old] [issue9new] 1 hS hD]
    decide

/-! ### Key-value store and publish-loop lemmas -/

theorem getKey_cons {α : Type} (q : String × α) (t : List (String × α)) (j : String) :
    getKey (q :: t) j = if q.1 == j then some q.2 else getKey t j := by
  unfold getKey
  by_cases h : q.1 = j
  · rw [List.find?_cons_of_pos _ (by simp [h]), if_pos (by simp [h])]
    rfl
  · rw [List.find?_cons_of_neg _ (by simp [h]), if_neg (by simp [h])]

theorem getKey_kvSet {α : Type} (m : List (String × α)) (k : String) (v : α) (j : String) :
    getKey (kvSet m k v) j = if j = k then some v else getKey m j := by
  induction m with
  | nil =>
    show getKey [(k, v)] j = _
    rw [getKey_cons]
    by_cases h : j = k
    · simp [h]
    · simp [h, Ne.symm h, getKey]
  | cons p t ih =>
    show getKey (if p.1 == k then (k, v) :: t else p :: kvSet t k v) j = _
    by_cases hpk : p.1 = k
    · rw [if_pos (by simp [hpk]), getKey_cons]
      by_cases hjk : j = k
      · simp [hjk]
      · rw [if_neg (by simp [Ne.symm hjk]), if_neg hjk, getKey_cons,
          if_neg (by simp [hpk, Ne.symm hjk])]
    · rw [if_neg (by simp [hpk]), getKey_cons, ih, getKey_cons]
      by_cases hjk : j = k
      · subst hjk
        rw [if_pos rfl, if_pos rfl, if_neg (by simp [hpk])]
      · rw [if_neg hjk, if_neg hjk]

theorem runQueue_all_ok {α : Type} (call : α → RemoteCall)
    (rem : α → DurableStore → DurableStore) (ok : RemoteCall → Bool)
    (q : List α) (st : DurableStore) (h : ∀ e ∈ q, ok (call e) = true) :
    runQueue call rem ok q st = (q.map call, q.foldl (fun s e => rem e s) st, true) := by
  induction q generalizing st with
  | nil => rfl
  | cons e rest ih =>
    simp only [runQueue]
    rw [if_pos (h e (List.mem_cons_self e rest)),
      ih (rem e st) (fun x hx => h x (List.mem_cons_of_mem e hx))]
    rfl

theorem runQueue_fail {α : Type} (call : α → RemoteCall)
    (rem : α → DurableStore → DurableStore) (ok : RemoteCall → Bool)
    (pre : List α) (y : α) (post : List α) (st : DurableStore)
    (hpre : ∀ e ∈ pre, ok (call e) = true) (hy : ok (call y) = false) :
    runQueue call rem ok (pre ++ y :: post) st
      = (pre.map call ++ [call y], pre.foldl (fun s e => rem e s) st, false) := by
  induction pre generalizing st with
  | nil =>
    simp only [List.nil_append, runQueue]
    rw [if_neg (by simp [hy])]
    rfl
  | cons e rest ih =>
    rw [List.cons_append]
    simp only [runQueue]
    rw [if_pos (hpre e (List.mem_cons_self e rest)),
      ih (rem e st) (fun x hx => hpre x (List.mem_cons_of_mem e hx))]
    rfl

theorem runQueue_proj {α β : Type} (call : α → RemoteCall)
    (rem : α → DurableStore → DurableStore) (ok : RemoteCall → Bool)
    (q : List α) (st : DurableStore) (proj : DurableStore → β)
    (hrem : ∀ e s, proj (rem e s) = proj s) :
    proj (runQueue call rem ok q st).2.1 = proj st := by
  induction q generalizing st with
  | nil => rfl
  | cons e rest ih =>
    simp only [runQueue]
    by_cases h : ok (call e) = true
    · rw [if_pos h]
      exact (ih (rem e st)).trans (hrem e st)
    · rw [if_neg h]

theorem foldl_remove_psc (q : List PendingStateChange) (st : DurableStore) :
    q.foldl (fun s c =>
        { s with pendingStateChanges := removePendingStateChange c.id s.pendingStateChanges }) st
      = { st with
          pendingStateChanges := q.foldl (fun l c => removePendingStateChange c.id l) st.pendingStateChanges } := by
  induction q generalizing st with
  | nil => rfl
  | cons c rest ih =>
    simp only [List.foldl_cons]
    rw [ih]

theorem foldl_remove_plu (q : List PendingLabelUpdate) (st : DurableStore) :
    q.foldl (fun s u =>
        { s with pendingLabelUpdates := removePendingLabelUpdate u.id s.pendingLabelUpdates }) st
      = { st with
          pendingLabelUpdates := q.foldl (fun l u => removePendingLabelUpdate u.id l) st.pendingLabelUpdates } := by
  induction q generalizing st with
  | nil => rfl
  | cons u rest ih =>
    simp only [List.foldl_cons]
    rw [ih]

theorem foldl_remove_li (q : List LocalIssue) (st : DurableStore) :
    q.foldl (fun s i => { s with localIssues := removeLocalIssue i.id s.localIssues }) st
      = { st with
          localIssues := q.foldl (fun l i => removeLocalIssue i.id l) st.localIssues } := by
  induction q generalizing st with
  | nil => rfl
  | cons i rest ih =>
    simp only [List.foldl_cons]
    rw [ih]

theorem foldl_remove_pr (q : List PendingReply) (st : DurableStore) :
    q.foldl (fun s e => { s with pendingReplies := removePendingReply e.id s.pendingReplies }) st
      = { st with
          pendingReplies := q.foldl (fun l e => removePendingReply e.id l) st.pendingReplies } := by
  induction q generalizing st with
  | nil => rfl
  | cons e rest ih =>
    simp only [List.foldl_cons]
    rw [ih]

theorem foldl_filter_all {α β : Type} (f : β → α → Bool) (q : List α) (L : List β) :
    q.foldl (fun l e => l.filter (fun r => f r e)) L
      = L.filter (fun r => q.all (fun e => f r e)) := by
  induction q generalizing L with
  | nil => simp
  | cons e rest ih =>
    simp only [List.foldl_cons]
    rw [ih, List.filter_filter]
    refine List.filter_congr ?_
    intro r _
    simp [List.all_cons, Bool.and_comm]

theorem publishStateChanges_all_ok (ok : RemoteCall → Bool) (repo : Repository)
    (st : DurableStore) (mem : MemState)
    (h : ∀ e ∈ st.pendingStateChanges.filter (fun x => x.repoId == repo.id),
      ok (stateChangeCall repo e) = true) :
    publishStateChanges ok repo st mem =
      { trace := (st.pendingStateChanges.filter (fun x => x.repoId == repo.id)).map (stateChangeCall repo),
        durable := { st with
          pendingStateChanges := (st.pendingStateChanges.filter (fun x => x.repoId == repo.id)).foldl
            (fun l x => removePendingStateChange x.id l) st.pendingStateChanges },
        mem := if (st.pendingStateChanges.filter (fun x => x.repoId == repo.id)).length > 0 then
            { mem with pendingStateChanges := mem.pendingStateChanges.filter (fun x => !(x.repoId == repo.id)) }
          else mem,
        ok := true } := by
  by_cases hlen : (st.pendingStateChanges.filter (fun x => x.repoId == repo.id)).length > 0
  · simp only [publishStateChanges]
    rw [if_pos hlen, runQueue_all_ok _ _ _ _ _ h, if_pos rfl, foldl_remove_psc, if_pos hlen]
  · simp only [publishStateChanges]
    have hnil : st.pendingStateChanges.filter (fun x => x.repoId == repo.id) = [] :=
      List.length_eq_zero.mp (Nat.le_zero.mp (Nat.not_lt.mp hlen))
    rw [if_neg hlen, if_neg hlen, hnil]
    rfl

theorem publishStateChanges_frames (ok : RemoteCall → Bool) (repo : Repository)
    (st : DurableStore) (mem : MemState) :
    (publishStateChanges ok repo st mem).durable.offlineRepos = st.offlineRepos ∧
    (publishStateChanges ok repo st mem).durable.cachedImages = st.cachedImages ∧
    (publishStateChanges ok repo st mem).mem.syncStatus = mem.syncStatus := by
  simp only [publishStateChanges]
  by_cases hlen : (st.pendingStateChanges.filter (fun x => x.repoId == repo.id)).length > 0
  · rw [if_pos hlen]
    by_cases hqr : (runQueue (stateChangeCall repo)
        (fun x s => { s with pendingStateChanges := removePendingStateChange x.id s.pendingStateChanges }) ok
        (st.pendingStateChanges.filter (fun x => x.repoId == repo.id)) st).2.2 = true
    · rw [if_pos hqr]
      exact ⟨runQueue_proj _ _ _ _ _ _ (fun e s => rfl),
        runQueue_proj _ _ _ _ _ _ (fun e s => rfl), rfl⟩
    · rw [if_neg hqr]
      exact ⟨runQueue_proj _ _ _ _ _ _ (fun e s => rfl),
        runQueue_proj _ _ _ _ _ _ (fun e s => rfl), rfl⟩
  · rw [if_neg hlen]
    exact ⟨rfl, rfl, rfl⟩

theorem publishLabelUpdates_all_ok (ok : RemoteCall → Bool) (repo : Repository)
    (st : DurableStore) (mem : MemState)
    (h : ∀ e ∈ st.pendingLabelUpdates.filter (fun x => x.repoId == repo.id),
      ok (labelUpdateCall repo e) = true) :
    publishLabelUpdates ok repo st mem =
      { trace := (st.pendingLabelUpdates.filter (fun x => x.repoId == repo.id)).map (labelUpdateCall repo),
        durable := { st with
          pendingLabelUpdates := (st.pendingLabelUpdates.filter (fun x => x.repoId == repo.id)).foldl
            (fun l x => removePendingLabelUpdate x.id l) st.pendingLabelUpdates },
        mem := if (st.pendingLabelUpdates.filter (fun x => x.repoId == repo.id)).length > 0 then
            { mem with pendingLabelUpdates := mem.pendingLabelUpdates.filter (fun x => !(x.repoId == repo.id)) }
          else mem,
        ok := true } := by
  by_cases hlen : (st.pendingLabelUpdates.filter (fun x => x.repoId == repo.id)).length > 0
  · simp only [publishLabelUpdates]
    rw [if_pos hlen, runQueue_all_ok _ _ _ _ _ h, if_pos rfl, foldl_remove_plu, if_pos hlen]
  · simp only [publishLabelUpdates]
    have hnil : st.pendingLabelUpdates.filter (fun x => x.repoId == repo.id) = [] :=
      List.length_eq_zero.mp (Nat.le_zero.mp (Nat.not_lt.mp hlen))
    rw [if_neg hlen, if_neg hlen, hnil]
    rfl

theorem publishLabelUpdates_frames (ok : RemoteCall → Bool) (repo : Repository)
    (st : DurableStore) (mem : MemState) :
    (publishLabelUpdates ok repo st mem).durable.offlineRepos = st.offlineRepos ∧
    (publishLabelUpdates ok repo st mem).durable.cachedImages = st.cachedImages ∧
    (publishLabelUpdates ok repo st mem).mem.syncStatus = mem.syncStatus := by
  simp only [publishLabelUpdates]
  by_cases hlen : (st.pendingLabelUpdates.filter (fun x => x.repoId == repo.id)).length > 0
  · rw [if_pos hlen]
    by_cases hqr : (runQueue (labelUpdateCall repo)
        (fun x s => { s with pendingLabelUpdates := removePendingLabelUpdate x.id s.pendingLabelUpdates }) ok
        (st.pendingLabelUpdates.filter (fun x => x.repoId == repo.id)) st).2.2 = true
    · rw [if_pos hqr]
      exact ⟨runQueue_proj _ _ _ _ _ _ (fun e s => rfl),
        runQueue_proj _ _ _ _ _ _ (fun e s => rfl), rfl⟩
    · rw [if_neg hqr]
      exact ⟨runQueue_proj _ _ _ _ _ _ (fun e s => rfl),
        runQueue_proj _ _ _ _ _ _ (fun e s => rfl), rfl⟩
  · rw [if_neg hlen]
    exact ⟨rfl, rfl, rfl⟩

theorem publishLocalIssues_all_ok (ok : RemoteCall → Bool) (repo : Repository)
    (st : DurableStore) (mem : MemState)
    (h : ∀ e ∈ st.localIssues.filter (fun x => x.repoId == repo.id),
      ok (localIssueCall repo e) = true) :
    publishLocalIssues ok repo st mem =
      { trace := (st.localIssues.filter (fun x => x.repoId == repo.id)).map (localIssueCall repo),
        durable := { st with
          localIssues := (st.localIssues.filter (fun x => x.repoId == repo.id)).foldl
            (fun l x => removeLocalIssue x.id l) st.localIssues },
        mem := if (st.localIssues.filter (fun x => x.repoId == repo.id)).length > 0 then
            { mem with localIssues := mem.localIssues.filter (fun x => !(x.repoId == repo.id)) }
          else mem,
        ok := true } := by
  by_cases hlen : (st.localIssues.filter (fun x => x.repoId == repo.id)).length > 0
  · simp only [publishLocalIssues]
    rw [if_pos hlen, runQueue_all_ok _ _ _ _ _ h, if_pos rfl, foldl_remove_li, if_pos hlen]
  · simp only [publishLocalIssues]
    have hnil : st.localIssues.filter (fun x => x.repoId == repo.id) = [] :=
      List.length_eq_zero.mp (Nat.le_zero.mp (Nat.not_lt.mp hlen))
    rw [if_neg hlen, if_neg hlen, hnil]
    rfl

theorem publishLocalIssues_frames (ok : RemoteCall → Bool) (repo : Repository)
    (st : DurableStore) (mem : MemState) :
    (publishLocalIssues ok repo st mem).durable.offlineRepos = st.offlineRepos ∧
    (publishLocalIssues ok repo st mem).durable.cachedImages = st.cachedImages ∧
    (publishLocalIssues ok repo st mem).mem.syncStatus = mem.syncStatus := by
  simp only [publishLocalIssues]
  by_cases hlen : (st.localIssues.filter (fun x => x.repoId == repo.id)).length > 0
  · rw [if_pos hlen]
    by_cases hqr : (runQueue (localIssueCall repo)
        (fun x s => { s with localIssues := removeLocalIssue x.id s.localIssues }) ok
        (st.localIssues.filter (fun x => x.repoId == repo.id)) st).2.2 = true
    · rw [if_pos hqr]
      exact ⟨runQueue_proj _ _ _ _ _ _ (fun e s => rfl),
        runQueue_proj _ _ _ _ _ _ (fun e s => rfl), rfl⟩
    · rw [if_neg hqr]
      exact ⟨runQueue_proj _ _ _ _ _ _ (fun e s => rfl),
        runQueue_proj _ _ _ _ _ _ (fun e s => rfl), rfl⟩
  · rw [if_neg hlen]
    exact ⟨rfl, rfl, rfl⟩

theorem publishReplies_all_ok (ok : RemoteCall → Bool) (repo : Repository)
    (st : DurableStore) (mem : MemState)
    (h : ∀ e ∈ st.pendingReplies.filter (fun x => x.repoId == repo.id),
      ok (replyCall repo e) = true) :
    publishReplies ok repo st mem =
      { trace := (st.pendingReplies.filter (fun x => x.repoId == repo.id)).map (replyCall repo),
        durable := { st with
          pendingReplies := (st.pendingReplies.filter (fun x => x.repoId == repo.id)).foldl
            (fun l x => removePendingReply x.id l) st.pendingReplies },
        mem := if (st.pendingReplies.filter (fun x => x.repoId == repo.id)).length > 0 then
            { mem with pendingReplies := mem.pendingReplies.filter (fun x => !(x.repoId == repo.id)) }
          else mem,
        ok := true } := by
  by_cases hlen : (st.pendingReplies.filter (fun x => x.repoId == repo.id)).length > 0
  · simp only [publishReplies]
    rw [if_pos hlen, runQueue_all_ok _ _ _ _ _ h, if_pos rfl, foldl_remove_pr, if_pos hlen]
  · simp only [publishReplies]
    have hnil : st.pendingReplies.filter (fun x => x.repoId == repo.id) = [] :=
      List.length_eq_zero.mp (Nat.le_zero.mp (Nat.not_lt.mp hlen))
    rw [if_neg hlen, if_neg hlen, hnil]
    rfl

theorem publishReplies_frames (ok : RemoteCall → Bool) (repo : Repository)
    (st : DurableStore) (mem : MemState) :
    (publishReplies ok repo st mem).durable.offlineRepos = st.offlineRepos ∧
    (publishReplies ok repo st mem).durable.cachedImages = st.cachedImages ∧
    (publishReplies ok repo st mem).mem.syncStatus = mem.syncStatus := by
  simp only [publishReplies]
  by_cases hlen : (st.pendingReplies.filter (fun x => x.repoId == repo.id)).length > 0
  · rw [if_pos hlen]
    by_cases hqr : (runQueue (replyCall repo)
        (fun x s => { s with pendingReplies := removePendingReply x.id s.pendingReplies }) ok
        (st.pendingReplies.filter (fun x => x.repoId == repo.id)) st).2.2 = true
    · rw [if_pos hqr]
      exact ⟨runQueue_proj _ _ _ _ _ _ (fun e s => rfl),
        runQueue_proj _ _ _ _ _ _ (fun e s => rfl), rfl⟩
    · rw [if_neg hqr]
      exact ⟨runQueue_proj _ _ _ _ _ _ (fun e s => rfl),
        runQueue_proj _ _ _ _ _ _ (fun e s => rfl), rfl⟩
  · rw [if_neg hlen]
    exact ⟨rfl, rfl, rfl⟩

theorem publishReplies_fail (ok : RemoteCall → Bool) (repo : Repository)
    (st : DurableStore) (mem : MemState) (pre : List PendingReply) (y : PendingReply)
    (post : List PendingReply)
    (hsplit : st.pendingReplies.filter (fun x => x.repoId == repo.id) = pre ++ y :: post)
    (hpre : ∀ e ∈ pre, ok (replyCall repo e) = true)
    (hy : ok (replyCall repo y) = false) :
    publishReplies ok repo st mem =
      { trace := pre.map (replyCall repo) ++ [replyCall repo y],
        durable := { st with
          pendingReplies := pre.foldl (fun l e => removePendingReply e.id l) st.pendingReplies },
        mem := mem, ok := false } := by
  have hlen : (st.pendingReplies.filter (fun x => x.repoId == repo.id)).length > 0 := by
    rw [hsplit]
    simp only [List.length_append, List.length_cons]
    omega
  simp only [publishReplies]
  rw [if_pos hlen, hsplit, runQueue_fail _ _ _ _ _ _ _ hpre hy, if_neg (by simp),
    foldl_remove_pr]

theorem publishPendingItems_frames (ok : RemoteCall → Bool) (repo : Repository)
    (st : DurableStore) (mem : MemState) :
    (publishPendingItems ok repo st mem).durable.offlineRepos = st.offlineRepos ∧
    (publishPendingItems ok repo st mem).durable.cachedImages = st.cachedImages ∧
    (publishPendingItems ok repo st mem).mem.syncStatus = mem.syncStatus := by
  simp only [publishPendingItems]
  obtain ⟨a1, b1, c1⟩ := publishStateChanges_frames ok repo st mem
  generalize hP1 : publishStateChanges ok repo st mem = p1 at *
  by_cases h1 : p1.ok = true
  · rw [if_pos h1]
    obtain ⟨a2, b2, c2⟩ := publishLabelUpdates_frames ok repo p1.durable p1.mem
    generalize hP2 : publishLabelUpdates ok repo p1.durable p1.mem = p2 at *
    by_cases h2 : p2.ok = true
    · rw [if_pos h2]
      obtain ⟨a3, b3, c3⟩ := publishLocalIssues_frames ok repo p2.durable p2.mem
      generalize hP3 : publishLocalIssues ok repo p2.durable p2.mem = p3 at *
      by_cases h3 : p3.ok = true
      · rw [if_pos h3]
        obtain ⟨a4, b4, c4⟩ := publishReplies_frames ok repo p3.durable p3.mem
        generalize hP4 : publishReplies ok repo p3.durable p3.mem = p4 at *
        exact ⟨a4.trans (a3.trans (a2.trans a1)), b4.trans (b3.trans (b2.trans b1)),
          c4.trans (c3.trans (c2.trans c1))⟩
      · rw [if_neg h3]
        exact ⟨a3.trans (a2.trans a1), b3.trans (b2.trans b1), c3.trans (c2.trans c1)⟩
    · rw [if_neg h2]
      exact ⟨a2.trans a1, b2.trans b1, c2.trans c1⟩
  · rw [if_neg h1]
    exact ⟨a1, b1, c1⟩

theorem publishPendingItems_all_ok (ok : RemoteCall → Bool) (repo : Repository)
    (st : DurableStore) (mem : MemState) (hok : ∀ c, ok c = true) :
    (publishPendingItems ok repo st mem).ok = true ∧
    (publishPendingItems ok repo st mem).trace =
      (((st.pendingStateChanges.filter (fun x => x.repoId == repo.id)).map (stateChangeCall repo)
        ++ (st.pendingLabelUpdates.filter (fun x => x.repoId == repo.id)).map (labelUpdateCall repo))
        ++ (st.localIssues.filter (fun x => x.repoId == repo.id)).map (localIssueCall repo))
        ++ (st.pendingReplies.filter (fun x => x.repoId == repo.id)).map (replyCall repo) ∧
    (publishPendingItems ok repo st mem).durable = { st with
      pendingStateChanges := (st.pendingStateChanges.filter (fun x => x.repoId == repo.id)).foldl
        (fun l x => removePendingStateChange x.id l) st.pendingStateChanges,
      pendingLabelUpdates := (st.pendingLabelUpdates.filter (fun x => x.repoId == repo.id)).foldl
        (fun l x => removePendingLabelUpdate x.id l) st.pendingLabelUpdates,
      localIssues := (st.localIssues.filter (fun x => x.repoId == repo.id)).foldl
        (fun l x => removeLocalIssue x.id l) st.localIssues,
      pendingReplies := (st.pendingReplies.filter (fun x => x.repoId == repo.id)).foldl
        (fun l x => removePendingReply x.id l) st.pendingReplies } ∧
    ((st.pendingStateChanges.filter (fun x => x.repoId == repo.id)).length > 0 →
      (publishPendingItems ok repo st mem).mem.pendingStateChanges
        = mem.pendingStateChanges.filter (fun x => !(x.repoId == repo.id))) ∧
    ((st.pendingLabelUpdates.filter (fun x => x.repoId == repo.id)).length > 0 →
      (publishPendingItems ok repo st mem).mem.pendingLabelUpdates
        = mem.pendingLabelUpdates.filter (fun x => !(x.repoId == repo.id))) ∧
    ((st.localIssues.filter (fun x => x.repoId == repo.id)).length > 0 →
      (publishPendingItems ok repo st mem).mem.localIssues
        = mem.localIssues.filter (fun x => !(x.repoId == repo.id))) ∧
    ((st.pendingReplies.filter (fun x => x.repoId == repo.id)).length > 0 →
      (publishPendingItems ok repo st mem).mem.pendingReplies
        = mem.pendingReplies.filter (fun x => !(x.repoId == repo.id))) := by
  simp only [publishPendingItems]
  rw [publishStateChanges_all_ok ok repo st mem (fun e _ => hok _), if_pos rfl,
    publishLabelUpdates_all_ok ok repo _ _ (fun e _ => hok _), if_pos rfl,
    publishLocalIssues_all_ok ok repo _ _ (fun e _ => hok _), if_pos rfl,
    publishReplies_all_ok ok repo _ _ (fun e _ => hok _)]
  dsimp only
  refine ⟨rfl, rfl, rfl, ?_, ?_, ?_, ?_⟩
  · intro h
    simp only [apply_ite MemState.pendingStateChanges, ite_self]
    rw [if_pos h]
  · intro h
    simp only [apply_ite MemState.pendingLabelUpdates, ite_self]
    rw [if_pos h]
  · intro h
    simp only [apply_ite MemState.localIssues, ite_self]
    rw [if_pos h]
  · intro h
    simp only [apply_ite MemState.pendingReplies, ite_self]
    rw [if_pos h]

theorem publishPendingItems_replies_fail (ok : RemoteCall → Bool) (repo : Repository)
    (st : DurableStore) (mem : MemState) (pre : List PendingReply) (y : PendingReply)
    (post : List PendingReply)
    (hnr : ∀ c, isPostCommentCall c = false → ok c = true)
    (hsplit : st.pendingReplies.filter (fun x => x.repoId == repo.id) = pre ++ y :: post)
    (hpre : ∀ e ∈ pre, ok (replyCall repo e) = true)
    (hy : ok (replyCall repo y) = false) :
    (publishPendingItems ok repo st mem).ok = false ∧
    (publishPendingItems ok repo st mem).trace =
      (((st.pendingStateChanges.filter (fun x => x.repoId == repo.id)).map (stateChangeCall repo)
        ++ (st.pendingLabelUpdates.filter (fun x => x.repoId == repo.id)).map (labelUpdateCall repo))
        ++ (st.localIssues.filter (fun x => x.repoId == repo.id)).map (localIssueCall repo))
        ++ (pre.map (replyCall repo) ++ [replyCall repo y]) ∧
    (publishPendingItems ok repo st mem).durable = { st with
      pendingStateChanges := (st.pendingStateChanges.filter (fun x => x.repoId == repo.id)).foldl
        (fun l x => removePendingStateChange x.id l) st.pendingStateChanges,
      pendingLabelUpdates := (st.pendingLabelUpdates.filter (fun x => x.repoId == repo.id)).foldl
        (fun l x => removePendingLabelUpdate x.id l) st.pendingLabelUpdates,
      localIssues := (st.localIssues.filter (fun x => x.repoId == repo.id)).foldl
        (fun l x => removeLocalIssue x.id l) st.localIssues,
      pendingReplies := pre.foldl (fun l e => removePendingReply e.id l) st.pendingReplies } := by
  simp only [publishPendingItems]
  have e1 := publishStateChanges_all_ok ok repo st mem (fun e _ => hnr _ rfl)
  generalize hP1 : publishStateChanges ok repo st mem = p1 at *
  have h1ok : p1.ok = true := by rw [e1]
  rw [if_pos h1ok]
  have e2 := publishLabelUpdates_all_ok ok repo p1.durable p1.mem (fun e _ => hnr _ rfl)
  generalize hP2 : publishLabelUpdates ok repo p1.durable p1.mem = p2 at *
  have h2ok : p2.ok = true := by rw [e2]
  rw [if_pos h2ok]
  have e3 := publishLocalIssues_all_ok ok repo p2.durable p2.mem (fun e _ => hnr _ rfl)
  generalize hP3 : publishLocalIssues ok repo p2.durable p2.mem = p3 at *
  have h3ok : p3.ok = true := by rw [e3]
  rw [if_pos h3ok]
  have hpr3 : p3.durable.pendingReplies = st.pendingReplies := by
    rw [e3]
    dsimp only
    rw [e2]
    dsimp only
    rw [e1]
  have e4 := publishReplies_fail ok repo p3.durable p3.mem pre y post
    (by rw [hpr3]; exact hsplit) hpre hy
  generalize hP4 : publishReplies ok repo p3.durable p3.mem = p4 at *
  refine ⟨?_, ?_, ?_⟩
  · show p4.ok = false
    rw [e4]
  · show ((p1.trace ++ p2.trace) ++ p3.trace) ++ p4.trace = _
    rw [e4, e3, e2, e1]
  · show p4.durable = _
    rw [e4, hpr3, e3]
    dsimp only
    rw [e2]
    dsimp only
    rw [e1]

theorem getKey_setKey_self {α : Type} (m : List (String × α)) (k : String) (v : α) :
    getKey (setKey m k v) k = some v := by
  unfold setKey
  rw [getKey_kvSet, if_pos rfl]

theorem cacheUrlList_reads (ok : RemoteCall → Bool) (urls : List String)
    (repoId now : String) (images : List CachedImage) :
    ∀ c ∈ (cacheUrlList ok urls repoId now images).1, isReadCall c = true := by
  induction urls generalizing images with
  | nil => intro c hc; cases hc
  | cons u rest ih =>
    intro c hc
    simp only [cacheUrlList] at hc
    rcases List.mem_append.mp hc with h | h
    · have hcu : c = RemoteCall.fetchImage u := by
        unfold cacheImage at h
        cases hg : getCachedImageByUrl u images with
        | some e => rw [hg] at h; cases h
        | none =>
          rw [hg] at h
          by_cases hok2 : ok (RemoteCall.fetchImage u) = true
          · rw [if_pos hok2] at h
            simpa using h
          · rw [if_neg hok2] at h
            simpa using h
      rw [hcu]
      rfl
    · exact ih _ c h

theorem not_mem_filter_all_id {α : Type} (getId : α → String) (L q : List α) (x : α)
    (hxq : x ∈ q) :
    x ∉ L.filter (fun r => q.all (fun e => !(getId r == getId e))) := by
  intro hx
  have hall := (List.mem_filter.mp hx).2
  rw [List.all_eq_true] at hall
  have hx2 := hall x hxq
  simp at hx2

theorem filter_comm_bool {α : Type} (p q : α → Bool) (l : List α) :
    (l.filter q).filter p = (l.filter p).filter q := by
  rw [List.filter_filter, List.filter_filter]
  exact List.filter_congr (fun a _ => Bool.and_comm _ _)

theorem replies_tail_after_fail (L pre post : List PendingReply) (y : PendingReply)
    (rid : String)
    (hsplit : L.filter (fun x => x.repoId == rid) = pre ++ y :: post)
    (hids : L.Pairwise (fun a b => a.id ≠ b.id)) :
    (L.filter (fun x => pre.all (fun e => !(x.id == e.id)))).filter
        (fun x => x.repoId == rid) = y :: post := by
  rw [filter_comm_bool, hsplit, List.filter_append]
  have hpw : (pre ++ y :: post).Pairwise (fun a b => a.id ≠ b.id) := by
    rw [← hsplit]
    exact hids.sublist (List.filter_sublist L)
  have hpre0 : pre.filter (fun x => pre.all (fun e => !(x.id == e.id))) = [] := by
    rw [List.filter_eq_nil_iff]
    intro a ha hall
    rw [List.all_eq_true] at hall
    have := hall a ha
    simp at this
  have hrest : (y :: post).filter (fun x => pre.all (fun e => !(x.id == e.id)))
      = y :: post := by
    rw [List.filter_eq_self]
    intro a ha
    rw [List.all_eq_true]
    intro e he
    have hne := (List.pairwise_append.mp hpw).2.2 e he a ha
    simp [Ne.symm hne]
  rw [hpre0, hrest, List.nil_append]

theorem map_write_calls {α : Type} (f : α → RemoteCall)
    (hf : ∀ a, isReadCall (f a) = false) (l : List α) :
    ∀ c ∈ l.map f, isReadCall c = false := by
  intro c hc
  obtain ⟨a, _, rfl⟩ := List.mem_map.mp hc
  exact hf a

/-- C2: during one full sync with all four mutation queues non-empty for
the repository and every remote call succeeding, the remote calls issued
are exactly: all pending state changes, then all pending label updates,
then all locally created issue creations, then all pending replies, each
queue strictly in order, and every call after this publish prefix is a
remote read (label fetch, issue fetch, image fetch) — the whole publish
phase runs before any remote read of the sync. -/
theorem publish_order_before_reads (env : RemoteEnv) (now : String) (repo : Repository)
    (st : DurableStore) (mem : MemState)
    (hok : ∀ c, env.ok c = true)
    (h1 : st.pendingStateChanges.filter (fun x => x.repoId == repo.id) ≠ [])
    (h2 : st.pendingLabelUpdates.filter (fun x => x.repoId == repo.id) ≠ [])
    (h3 : st.localIssues.filter (fun x => x.repoId == repo.id) ≠ [])
    (h4 : st.pendingReplies.filter (fun x => x.repoId == repo.id) ≠ []) :
    (syncRepository env now repo st mem).trace.take
        ((st.pendingStateChanges.filter (fun x => x.repoId == repo.id)).length
          + (st.pendingLabelUpdates.filter (fun x => x.repoId == repo.id)).length
          + (st.localIssues.filter (fun x => x.repoId == repo.id)).length
          + (st.pendingReplies.filter (fun x => x.repoId == repo.id)).length) =
      (((st.pendingStateChanges.filter (fun x => x.repoId == repo.id)).map (stateChangeCall repo)
        ++ (st.pendingLabelUpdates.filter (fun x => x.repoId == repo.id)).map (labelUpdateCall repo))
        ++ (st.localIssues.filter (fun x => x.repoId == repo.id)).map (localIssueCall repo))
        ++ (st.pendingReplies.filter (fun x => x.repoId == repo.id)).map (replyCall repo) ∧
    ∀ c ∈ (syncRepository env now repo st mem).trace.drop
        ((st.pendingStateChanges.filter (fun x => x.repoId == repo.id)).length
          + (st.pendingLabelUpdates.filter (fun x => x.repoId == repo.id)).length
          + (st.localIssues.filter (fun x => x.repoId == repo.id)).length
          + (st.pendingReplies.filter (fun x => x.repoId == repo.id)).length),
      isReadCall c = true := by
  obtain ⟨po, pt, pd, _, _, _, _⟩ := publishPendingItems_all_ok env.ok repo st
    { mem with syncStatus := setKey mem.syncStatus repo.id true } hok
  simp only [syncRepository]
  generalize hP : publishPendingItems env.ok repo st
    { mem with syncStatus := setKey mem.syncStatus repo.id true } = p at *
  rw [if_pos po, if_pos (hok _), if_pos (hok _)]
  dsimp only
  have hlen : ((((st.pendingStateChanges.filter (fun x => x.repoId == repo.id)).map
        (stateChangeCall repo)
      ++ (st.pendingLabelUpdates.filter (fun x => x.repoId == repo.id)).map (labelUpdateCall repo))
      ++ (st.localIssues.filter (fun x => x.repoId == repo.id)).map (localIssueCall repo))
      ++ (st.pendingReplies.filter (fun x => x.repoId == repo.id)).map (replyCall repo)).length
      = (st.pendingStateChanges.filter (fun x => x.repoId == repo.id)).length
        + (st.pendingLabelUpdates.filter (fun x => x.repoId == repo.id)).length
        + (st.localIssues.filter (fun x => x.repoId == repo.id)).length
        + (st.pendingReplies.filter (fun x => x.repoId == repo.id)).length := by
    simp only [List.length_append, List.length_map]
  constructor
  · rw [pt, List.append_assoc, ← hlen, ← pt, List.take_left]
  · intro c hc
    rw [pt, List.append_assoc, ← hlen, ← pt, List.drop_left] at hc
    rcases List.mem_append.mp hc with h | h
    · rcases List.mem_cons.mp h with rfl | h
      · rfl
      · rcases List.mem_cons.mp h with rfl | h
        · rfl
        · cases h
    · exact cacheUrlList_reads env.ok _ repo.id now p.durable.cachedImages c h

/-- Witness for C2 at concrete inputs: each queue of sampleStore holds an
entry for repoA, every call succeeds, and the sync trace starts with the
five publish calls in queue order followed only by reads. -/
theorem publish_order_before_reads_witness :
    ((∀ c, envAllOk.ok c = true) ∧
      sampleStore.pendingStateChanges.filter (fun x => x.repoId == repoA.id) ≠ [] ∧
      sampleStore.pendingLabelUpdates.filter (fun x => x.repoId == repoA.id) ≠ [] ∧
      sampleStore.localIssues.filter (fun x => x.repoId == repoA.id) ≠ [] ∧
      sampleStore.pendingReplies.filter (fun x => x.repoId == repoA.id) ≠ []) ∧
    ((syncRepository envAllOk "2024-03-01T00:00:00Z" repoA sampleStore sampleMem).trace.take
        ((sampleStore.pendingStateChanges.filter (fun x => x.repoId == repoA.id)).length
          + (sampleStore.pendingLabelUpdates.filter (fun x => x.repoId == repoA.id)).length
          + (sampleStore.localIssues.filter (fun x => x.repoId == repoA.id)).length
          + (sampleStore.pendingReplies.filter (fun x => x.repoId == repoA.id)).length) =
      (((sampleStore.pendingStateChanges.filter (fun x => x.repoId == repoA.id)).map
          (stateChangeCall repoA)
        ++ (sampleStore.pendingLabelUpdates.filter (fun x => x.repoId == repoA.id)).map
          (labelUpdateCall repoA))
        ++ (sampleStore.localIssues.filter (fun x => x.repoId == repoA.id)).map
          (localIssueCall repoA))
        ++ (sampleStore.pendingReplies.filter (fun x => x.repoId == repoA.id)).map
          (replyCall repoA) ∧
      ∀ c ∈ (syncRepository envAllOk "2024-03-01T00:00:00Z" repoA sampleStore
          sampleMem).trace.drop
        ((sampleStore.pendingStateChanges.filter (fun x => x.repoId == repoA.id)).length
          + (sampleStore.pendingLabelUpdates.filter (fun x => x.repoId == repoA.id)).length
          + (sampleStore.localIssues.filter (fun x => x.repoId == repoA.id)).length
          + (sampleStore.pendingReplies.filter (fun x => x.repoId == repoA.id)).length),
        isReadCall c = true) :=
  ⟨⟨fun c => rfl, by decide, by decide, by decide, by decide⟩,
    publish_order_before_reads envAllOk "2024-03-01T00:00:00Z" repoA sampleStore sampleMem
      (fun c => rfl) (by decide) (by decide) (by decide) (by decide)⟩

/-- C3: in the publish phase, with every remote call succeeding, each
published entry is absent from both the durable queue and the in-memory
mirror afterwards; and when the remote call for a reply y fails after the
replies pre were published (every other kind of call succeeding), the
entire sync aborts without issuing any remote read, the entries published
strictly before y are absent from the durable queues, and y together with
every entry after it remains queued. -/
theorem publish_dequeue_semantics (env : RemoteEnv) (now : String) (repo : Repository)
    (st : DurableStore) (mem : MemState) :
    ((∀ c, env.ok c = true) →
      (publishPendingItems env.ok repo st mem).ok = true ∧
      (∀ x ∈ st.pendingStateChanges, x.repoId = repo.id →
        x ∉ (publishPendingItems env.ok repo st mem).durable.pendingStateChanges ∧
        x ∉ (publishPendingItems env.ok repo st mem).mem.pendingStateChanges) ∧
      (∀ x ∈ st.pendingLabelUpdates, x.repoId = repo.id →
        x ∉ (publishPendingItems env.ok repo st mem).durable.pendingLabelUpdates ∧
        x ∉ (publishPendingItems env.ok repo st mem).mem.pendingLabelUpdates) ∧
      (∀ x ∈ st.localIssues, x.repoId = repo.id →
        x ∉ (publishPendingItems env.ok repo st mem).durable.localIssues ∧
        x ∉ (publishPendingItems env.ok repo st mem).mem.localIssues) ∧
      (∀ x ∈ st.pendingReplies, x.repoId = repo.id →
        x ∉ (publishPendingItems env.ok repo st mem).durable.pendingReplies ∧
        x ∉ (publishPendingItems env.ok repo st mem).mem.pendingReplies)) ∧
    (∀ (pre : List PendingReply) (y : PendingReply) (post : List PendingReply),
      (∀ c, isPostCommentCall c = false → env.ok c = true) →
      st.pendingReplies.filter (fun x => x.repoId == repo.id) = pre ++ y :: post →
      (∀ e ∈ pre, env.ok (replyCall repo e) = true) →
      env.ok (replyCall repo y) = false →
      st.pendingReplies.Pairwise (fun a b => a.id ≠ b.id) →
      (syncRepository env now repo st mem).ok = false ∧
      (∀ c ∈ (syncRepository env now repo st mem).trace, isReadCall c = false) ∧
      (∀ e ∈ pre, e ∉ (syncRepository env now repo st mem).durable.pendingReplies) ∧
      (syncRepository env now repo st mem).durable.pendingReplies.filter
          (fun x => x.repoId == repo.id) = y :: post ∧
      (∀ x ∈ st.pendingStateChanges, x.repoId = repo.id →
        x ∉ (syncRepository env now repo st mem).durable.pendingStateChanges) ∧
      (∀ x ∈ st.pendingLabelUpdates, x.repoId = repo.id →
        x ∉ (syncRepository env now repo st mem).durable.pendingLabelUpdates) ∧
      (∀ x ∈ st.localIssues, x.repoId = repo.id →
        x ∉ (syncRepository env now repo st mem).durable.localIssues)) := by
  constructor
  · intro hok
    obtain ⟨po, pt, pd, m1, m2, m3, m4⟩ := publishPendingItems_all_ok env.ok repo st mem hok
    refine ⟨po, ?_, ?_, ?_, ?_⟩
    · intro x hx hrep
      have hxq : x ∈ st.pendingStateChanges.filter (fun c => c.repoId == repo.id) :=
        List.mem_filter.mpr ⟨hx, by simp [hrep]⟩
      constructor
      · rw [pd]
        dsimp only
        simp only [removePendingStateChange]
        rw [foldl_filter_all]
        exact not_mem_filter_all_id (fun c => c.id) st.pendingStateChanges _ x hxq
      · have hlen : (st.pendingStateChanges.filter
            (fun c => c.repoId == repo.id)).length > 0 :=
          List.length_pos.mpr (List.ne_nil_of_mem hxq)
        rw [m1 hlen]
        intro hmem2
        have := (List.mem_filter.mp hmem2).2
        simp [hrep] at this
    · intro x hx hrep
      have hxq : x ∈ st.pendingLabelUpdates.filter (fun c => c.repoId == repo.id) :=
        List.mem_filter.mpr ⟨hx, by simp [hrep]⟩
      constructor
      · rw [pd]
        dsimp only
        simp only [removePendingLabelUpdate]
        rw [foldl_filter_all]
        exact not_mem_filter_all_id (fun c => c.id) st.pendingLabelUpdates _ x hxq
      · have hlen : (st.pendingLabelUpdates.filter
            (fun c => c.repoId == repo.id)).length > 0 :=
          List.length_pos.mpr (List.ne_nil_of_mem hxq)
        rw [m2 hlen]
        intro hmem2
        have := (List.mem_filter.mp hmem2).2
        simp [hrep] at this
    · intro x hx hrep
      have hxq : x ∈ st.localIssues.filter (fun c => c.repoId == repo.id) :=
        List.mem_filter.mpr ⟨hx, by simp [hrep]⟩
      constructor
      · rw [pd]
        dsimp only
        simp only [removeLocalIssue]
        rw [foldl_filter_all]
        exact not_mem_filter_all_id (fun c => c.id) st.localIssues _ x hxq
      · have hlen : (st.localIssues.filter (fun c => c.repoId == repo.id)).length > 0 :=
          List.length_pos.mpr (List.ne_nil_of_mem hxq)
        rw [m3 hlen]
        intro hmem2
        have := (List.mem_filter.mp hmem2).2
        simp [hrep] at this
    · intro x hx hrep
      have hxq : x ∈ st.pendingReplies.filter (fun c => c.repoId == repo.id) :=
        List.mem_filter.mpr ⟨hx, by simp [hrep]⟩
      constructor
      · rw [pd]
        dsimp only
        simp only [removePendingReply]
        rw [foldl_filter_all]
        exact not_mem_filter_all_id (fun c => c.id) st.pendingReplies _ x hxq
      · have hlen : (st.pendingReplies.filter (fun c => c.repoId == repo.id)).length > 0 :=
          List.length_pos.mpr (List.ne_nil_of_mem hxq)
        rw [m4 hlen]
        intro hmem2
        have := (List.mem_filter.mp hmem2).2
        simp [hrep] at this
  · intro pre y post hnr hsplit hpre hy hids
    obtain ⟨po, pt, pd⟩ := publishPendingItems_replies_fail env.ok repo st
      { mem with syncStatus := setKey mem.syncStatus repo.id true } pre y post hnr hsplit hpre hy
    simp only [syncRepository]
    generalize hP : publishPendingItems env.ok repo st
      { mem with syncStatus := setKey mem.syncStatus repo.id true } = p at *
    rw [if_neg (by simp [po])]
    dsimp only
    refine ⟨rfl, ?_, ?_, ?_, ?_, ?_, ?_⟩
    · intro c hc
      rw [pt] at hc
      rcases List.mem_append.mp hc with h | h
      · rcases List.mem_append.mp h with h | h
        · rcases List.mem_append.mp h with h | h
          · exact map_write_calls (stateChangeCall repo) (fun a => rfl) _ c h
          · exact map_write_calls (labelUpdateCall repo) (fun a => rfl) _ c h
        · exact map_write_calls (localIssueCall repo) (fun a => rfl) _ c h
      · rcases List.mem_append.mp h with h | h
        · exact map_write_calls (replyCall repo) (fun a => rfl) _ c h
        · have hcy : c = replyCall repo y := by simpa using h
          rw [hcy]
          rfl
    · intro e he
      rw [pd]
      dsimp only
      simp only [removePendingReply]
      rw [foldl_filter_all]
      exact not_mem_filter_all_id (fun r => r.id) st.pendingReplies pre e he
    · rw [pd]
      dsimp only
      simp only [removePendingReply]
      rw [foldl_filter_all]
      exact replies_tail_after_fail st.pendingReplies pre post y repo.id hsplit hids
    · intro x hx hrep
      have hxq : x ∈ st.pendingStateChanges.filter (fun c => c.repoId == repo.id) :=
        List.mem_filter.mpr ⟨hx, by simp [hrep]⟩
      rw [pd]
      dsimp only
      simp only [removePendingStateChange]
      rw [foldl_filter_all]
      exact not_mem_filter_all_id (fun c => c.id) st.pendingStateChanges _ x hxq
    · intro x hx hrep
      have hxq : x ∈ st.pendingLabelUpdates.filter (fun c => c.repoId == repo.id) :=
        List.mem_filter.mpr ⟨hx, by simp [hrep]⟩
      rw [pd]
      dsimp only
      simp only [removePendingLabelUpdate]
      rw [foldl_filter_all]
      exact not_mem_filter_all_id (fun c => c.id) st.pendingLabelUpdates _ x hxq
    · intro x hx hrep
      have hxq : x ∈ st.localIssues.filter (fun c => c.repoId == repo.id) :=
        List.mem_filter.mpr ⟨hx, by simp [hrep]⟩
      rw [pd]
      dsimp only
      simp only [removeLocalIssue]
      rw [foldl_filter_all]
      exact not_mem_filter_all_id (fun c => c.id) st.localIssues _ x hxq

/-- Witness for C3 at concrete inputs: with the call for reply2 failing,
the sync aborts, reply1 is gone from the durable queue and reply2 remains
the only queued reply for the repository. -/
theorem publish_dequeue_semantics_witness :
    (syncRepository envFailReply2 "2024-03-01T00:00:00Z" repoA sampleStore sampleMem).ok
        = false ∧
    (syncRepository envFailReply2 "2024-03-01T00:00:00Z" repoA sampleStore
        sampleMem).durable.pendingReplies.filter (fun x => x.repoId == repoA.id)
      = reply2 :: [] ∧
    reply1 ∉ (syncRepository envFailReply2 "2024-03-01T00:00:00Z" repoA sampleStore
        sampleMem).durable.pendingReplies := by
  have h := (publish_dequeue_semantics envFailReply2 "2024-03-01T00:00:00Z" repoA sampleStore
      sampleMem).2 [reply1] reply2 []
    (by
      intro c hc
      cases c <;> simp_all [isPostCommentCall, envFailReply2, envAllOk, replyCall, repoA, reply2])
    (by decide) (by decide) (by decide) (by decide)
  exact ⟨h.1, h.2.2.2.1, h.2.2.1 reply1 (by simp)⟩

theorem syncRepository_facts (env : RemoteEnv) (now : String) (repo : Repository)
    (st : DurableStore) (mem : MemState) :
    ((syncRepository env now repo st mem).ok = false →
      (syncRepository env now repo st mem).durable.offlineRepos = st.offlineRepos) ∧
    ((syncRepository env now repo st mem).ok = true →
      (getOfflineRepository repo.id
          (syncRepository env now repo st mem).durable.offlineRepos).map
        (fun o => o.last_synced) = some (some now)) ∧
    getKey (syncRepository env now repo st mem).mem.syncStatus repo.id = some false := by
  obtain ⟨fa, fb, fc⟩ := publishPendingItems_frames env.ok repo st
    { mem with syncStatus := setKey mem.syncStatus repo.id true }
  simp only [syncRepository]
  generalize hP : publishPendingItems env.ok repo st
    { mem with syncStatus := setKey mem.syncStatus repo.id true } = p at *
  by_cases h1 : p.ok = true
  · rw [if_pos h1]
    by_cases h2 : env.ok (RemoteCall.fetchRepositoryLabels repo.owner repo.name) = true
    · rw [if_pos h2]
      by_cases h3 : env.ok (RemoteCall.fetchAllIssues repo.owner repo.name) = true
      · rw [if_pos h3]
        dsimp only
        refine ⟨fun h => Bool.noConfusion h, fun _ => ?_, getKey_setKey_self _ _ _⟩
        show (getKey (saveOfflineRepository _ p.durable.offlineRepos)
            (offlineKey repo.id)).map (fun o => o.last_synced) = some (some now)
        unfold saveOfflineRepository
        rw [getKey_kvSet, if_pos rfl]
        rfl
      · rw [if_neg h3]
        dsimp only
        exact ⟨fun _ => fa, fun h => Bool.noConfusion h, getKey_setKey_self _ _ _⟩
    · rw [if_neg h2]
      dsimp only
      exact ⟨fun _ => fa, fun h => Bool.noConfusion h, getKey_setKey_self _ _ _⟩
  · rw [if_neg h1]
    dsimp only
    exact ⟨fun _ => fa, fun h => Bool.noConfusion h, getKey_setKey_self _ _ _⟩

theorem incrementalSyncRepository_facts (env : RemoteEnv) (now : String) (repo : Repository)
    (st : DurableStore) (mem : MemState) :
    ((incrementalSyncRepository env now repo st mem).ok = false →
      (incrementalSyncRepository env now repo st mem).durable.offlineRepos
        = st.offlineRepos) ∧
    ((incrementalSyncRepository env now repo st mem).ok = true →
      (getOfflineRepository repo.id
          (incrementalSyncRepository env now repo st mem).durable.offlineRepos).map
        (fun o => o.last_synced) = some (some now)) ∧
    getKey (incrementalSyncRepository env now repo st mem).mem.syncStatus repo.id
      = some false := by
  simp only [incrementalSyncRepository]
  cases hG : getKey mem.offlineData repo.id with
  | none => exact syncRepository_facts env now repo st mem
  | some existing =>
    dsimp only
    cases hLS : existing.last_synced with
    | none => exact syncRepository_facts env now repo st mem
    | some since =>
      dsimp only
      obtain ⟨fa, fb, fc⟩ := publishPendingItems_frames env.ok repo st
        { mem with syncStatus := setKey mem.syncStatus repo.id true }
      generalize hP : publishPendingItems env.ok repo st
        { mem with syncStatus := setKey mem.syncStatus repo.id true } = p at *
      by_cases h1 : p.ok = true
      · rw [if_pos h1]
        by_cases h2 : env.ok (RemoteCall.fetchUpdatedIssues repo.owner repo.name since) = true
        · rw [if_pos h2]
          dsimp only
          refine ⟨fun h => Bool.noConfusion h, fun _ => ?_, getKey_setKey_self _ _ _⟩
          show (getKey (saveOfflineRepository _ p.durable.offlineRepos)
              (offlineKey repo.id)).map (fun o => o.last_synced) = some (some now)
          unfold saveOfflineRepository
          rw [getKey_kvSet, if_pos rfl]
          rfl
        · rw [if_neg h2]
          dsimp only
          exact ⟨fun _ => fa, fun h => Bool.noConfusion h, getKey_setKey_self _ _ _⟩
      · rw [if_neg h1]
        dsimp only
        exact ⟨fun _ => fa, fun h => Bool.noConfusion h, getKey_setKey_self _ _ _⟩

/-- C7: when a full or incremental sync fails at any point during publish
or fetch, the persisted offline snapshot store (including the last_synced
cursor) is unchanged; last_synced is set to the sync start time exactly
when the sync completes successfully; and the progress slot of the
repository is reset to not syncing on every outcome. -/
theorem sync_failure_preserves_snapshot (env : RemoteEnv) (now : String) (repo : Repository)
    (st : DurableStore) (mem : MemState) :
    ((syncRepository env now repo st mem).ok = false →
      (syncRepository env now repo st mem).durable.offlineRepos = st.offlineRepos) ∧
    ((syncRepository env now repo st mem).ok = true →
      (getOfflineRepository repo.id
          (syncRepository env now repo st mem).durable.offlineRepos).map
        (fun o => o.last_synced) = some (some now)) ∧
    getKey (syncRepository env now repo st mem).mem.syncStatus repo.id = some false ∧
    ((incrementalSyncRepository env now repo st mem).ok = false →
      (incrementalSyncRepository env now repo st mem).durable.offlineRepos
        = st.offlineRepos) ∧
    ((incrementalSyncRepository env now repo st mem).ok = true →
      (getOfflineRepository repo.id
          (incrementalSyncRepository env now repo st mem).durable.offlineRepos).map
        (fun o => o.last_synced) = some (some now)) ∧
    getKey (incrementalSyncRepository env now repo st mem).mem.syncStatus repo.id
      = some false := by
  obtain ⟨a, b, c⟩ := syncRepository_facts env now repo st mem
  obtain ⟨d, e, f⟩ := incrementalSyncRepository_facts env now repo st mem
  exact ⟨a, b, c, d, e, f⟩

/-- Witness for C7 at concrete inputs: the failing sync leaves the
snapshot store untouched and resets the progress slot; the successful
incremental sync advances last_synced to the new time. -/
theorem sync_failure_preserves_snapshot_witness :
    ((syncRepository envFailReply2 "2024-03-01T00:00:00Z" repoA sampleStore sampleMem).ok
        = false ∧
      (syncRepository envFailReply2 "2024-03-01T00:00:00Z" repoA sampleStore
          sampleMem).durable.offlineRepos = sampleStore.offlineRepos) ∧
    getKey (syncRepository envFailReply2 "2024-03-01T00:00:00Z" repoA sampleStore
        sampleMem).mem.syncStatus repoA.id = some false ∧
    ((incrementalSyncRepository envAllOk "2024-03-01T00:00:00Z" repoA sampleStore
        sampleMem).ok = true ∧
      (getOfflineRepository repoA.id (incrementalSyncRepository envAllOk
          "2024-03-01T00:00:00Z" repoA sampleStore sampleMem).durable.offlineRepos).map
        (fun o => o.last_synced) = some (some "2024-03-01T00:00:00Z")) := by
  have h1 := sync_failure_preserves_snapshot envFailReply2 "2024-03-01T00:00:00Z" repoA
    sampleStore sampleMem
  have h2 := sync_failure_preserves_snapshot envAllOk "2024-03-01T00:00:00Z" repoA
    sampleStore sampleMem
  exact ⟨⟨by decide, h1.1 (by decide)⟩, h1.2.2.1, ⟨by decide, h2.2.2.2.2.1 (by decide)⟩⟩

theorem filter_length_one_of_find?_url (images : List CachedImage) (url : String)
    (e : CachedImage) (hpw : images.Pairwise (fun a b => a.url ≠ b.url))
    (hfind : images.find? (fun i => i.url == url) = some e) :
    (images.filter (fun i => i.url == url)).length = 1 := by
  induction images with
  | nil => cases hfind
  | cons a t ih =>
    rw [List.pairwise_cons] at hpw
    by_cases pa : a.url = url
    · have hfa : (a :: t).filter (fun i => i.url == url)
          = a :: t.filter (fun i => i.url == url) := by
        simp [List.filter_cons, pa]
      rw [hfa]
      have ht : t.filter (fun i => i.url == url) = [] := by
        rw [List.filter_eq_nil_iff]
        intro x hx
        have hax := hpw.1 x hx
        simp only [beq_eq_false_iff_ne, ne_eq, Bool.not_eq_true]
        intro hxu
        exact hax (pa.trans hxu.symm)
      rw [ht]
      rfl
    · have hfa : (a :: t).filter (fun i => i.url == url)
          = t.filter (fun i => i.url == url) := by
        simp [List.filter_cons, pa]
      rw [hfa]
      rw [List.find?_cons_of_neg _ (by simp [pa])] at hfind
      exact ih hpw.2 hfind

/-- C8: calling cacheImage twice with the same url (with the fetch
succeeding) performs at most one network fetch in total, leaves exactly
one cached entry for that url, and the second call short-circuits: it
fetches nothing, changes nothing and returns the existing entry; urls
stay pairwise distinct in the cache. -/
theorem cacheImage_dedup (ok : RemoteCall → Bool) (url repoId now repoId2 now2 : String)
    (images : List CachedImage)
    (hok : ok (RemoteCall.fetchImage url) = true)
    (hdistinct : images.Pairwise (fun a b => a.url ≠ b.url)) :
    ((cacheImage ok url repoId now images).1
      ++ (cacheImage ok url repoId2 now2 (cacheImage ok url repoId now images).2.1).1).length
        ≤ 1 ∧
    ((cacheImage ok url repoId2 now2
        (cacheImage ok url repoId now images).2.1).2.1.filter
      (fun i => i.url == url)).length = 1 ∧
    (cacheImage ok url repoId2 now2 (cacheImage ok url repoId now images).2.1).1 = [] ∧
    (cacheImage ok url repoId2 now2 (cacheImage ok url repoId now images).2.1).2.1
      = (cacheImage ok url repoId now images).2.1 ∧
    ((cacheImage ok url repoId2 now2
        (cacheImage ok url repoId now images).2.1).2.2).isSome = true ∧
    (cacheImage ok url repoId2 now2
        (cacheImage ok url repoId now images).2.1).2.1.Pairwise
      (fun a b => a.url ≠ b.url) := by
  cases hg : getCachedImageByUrl url images with
  | some e =>
    have h1 : cacheImage ok url repoId now images = ([], images, some e) := by
      unfold cacheImage
      rw [hg]
    have h2 : cacheImage ok url repoId2 now2 images = ([], images, some e) := by
      unfold cacheImage
      rw [hg]
    rw [h1]
    dsimp only
    rw [h2]
    dsimp only
    refine ⟨by simp, ?_, rfl, rfl, rfl, hdistinct⟩
    exact filter_length_one_of_find?_url images url e hdistinct hg
  | none =>
    have h1 : cacheImage ok url repoId now images
        = ([RemoteCall.fetchImage url], images ++ [mkCachedImage url repoId now],
           some (mkCachedImage url repoId now)) := by
      unfold cacheImage
      rw [hg, if_pos hok]
      unfold addCachedImage
      have hg2 : images.find? (fun i => i.url == (mkCachedImage url repoId now).url)
          = none := hg
      rw [hg2]
    have hg3 : getCachedImageByUrl url (images ++ [mkCachedImage url repoId now])
        = some (mkCachedImage url repoId now) := by
      unfold getCachedImageByUrl
      rw [List.find?_append, show images.find? (fun i => i.url == url) = none from hg]
      simp [List.find?, mkCachedImage]
    have h2 : cacheImage ok url repoId2 now2 (images ++ [mkCachedImage url repoId now])
        = ([], images ++ [mkCachedImage url repoId now],
           some (mkCachedImage url repoId now)) := by
      unfold cacheImage
      rw [hg3]
    rw [h1]
    dsimp only
    rw [h2]
    dsimp only
    have hnone : ∀ a ∈ images, ¬(a.url = url) := by
      intro a ha
      have := List.find?_eq_none.mp hg a ha
      simpa using this
    refine ⟨by simp, ?_, rfl, rfl, rfl, ?_⟩
    · rw [List.filter_append]
      have himgs : images.filter (fun i => i.url == url) = [] := by
        rw [List.filter_eq_nil_iff]
        intro a ha
        simpa using hnone a ha
      rw [himgs]
      simp [mkCachedImage]
    · rw [List.pairwise_append]
      refine ⟨hdistinct, List.pairwise_singleton _ _, ?_⟩
      intro a ha b hb
      have hb2 : b = mkCachedImage url repoId now := by simpa using hb
      subst hb2
      exact hnone a ha

/-- Witness for C8 at concrete inputs: starting from an empty cache, two
cacheImage calls for the same url make one fetch, one entry, and the
second call returns the existing entry without fetching. -/
theorem cacheImage_dedup_witness :
    envAllOk.ok (RemoteCall.fetchImage "https://example.com/a.png") = true ∧
    (((cacheImage envAllOk.ok "https://example.com/a.png" "acme/widgets" "t1" []).1
      ++ (cacheImage envAllOk.ok "https://example.com/a.png" "acme/widgets" "t2"
          (cacheImage envAllOk.ok "https://example.com/a.png" "acme/widgets" "t1"
            []).2.1).1).length ≤ 1 ∧
      ((cacheImage envAllOk.ok "https://example.com/a.png" "acme/widgets" "t2"
          (cacheImage envAllOk.ok "https://example.com/a.png" "acme/widgets" "t1"
            []).2.1).2.1.filter
        (fun i => i.url == "https://example.com/a.png")).length = 1) := by
  refine ⟨rfl, ?_⟩
  have h := cacheImage_dedup envAllOk.ok "https://example.com/a.png" "acme/widgets" "t1"
    "acme/widgets" "t2" [] rfl List.Pairwise.nil
  exact ⟨h.1, h.2.1⟩

end GitHubOfflineIssues
